import Mathlib

/-!
# DS18B20TinyLibAVR: the 1-Wire master of `ds18b20_tiny.c`

A shallow embedding of `ds18b20_tiny.h` / `ds18b20_tiny.c` (AVR, `int` is 16 bits,
little-endian).  Every C function becomes a Lean function that passes the machine
state explicitly.  The state holds

* the two port registers the pin macros write (`DDRB`, `PORTB`),
* the global interrupt flag that `ATOMIC_BLOCK` saves, clears and restores,
* the two globals of the driver (`_temp`, `_resolution`),
* the history of what happened on the pin (`trace`) and the history of the
  arguments `_io` was called with (`slots`); both are ghost fields that no
  function reads.

What the input register `PINB` shows is decided by the outside world (the pull-up and
the slave device).  It is a parameter `bus : Bus`: the `k`-th read of `PINB` since the
start of the history returns `bus k`, and the state counts the reads.
-/

namespace DS18B20

/-! ## Constants of `ds18b20_tiny.h` -/

/-- `#define OW_PIN PB0`: bit number 0 of port B. -/
def OW_PIN : Nat := 0

/-- `#define OW_CMD_SKIP_ROM 0xCC`. -/
def OW_CMD_SKIP_ROM : Nat := 0xCC

/-- `#define DS18B20_CMD_READ_SCRATCHPAD 0xBE`. -/
def DS18B20_CMD_READ_SCRATCHPAD : Nat := 0xBE

/-- `#define DS18B20_CMD_WRITE_SCRATCHPAD 0x4E`. -/
def DS18B20_CMD_WRITE_SCRATCHPAD : Nat := 0x4E

/-- `#define DS18B20_CMD_CONVERT_T 0x44`. -/
def DS18B20_CMD_CONVERT_T : Nat := 0x44

/-- `#define OW_PIN_MASK (1 << OW_PIN)`. -/
def OW_PIN_MASK : Nat := 1 <<< OW_PIN

/-! ## Machine state -/

/-- What can happen on the pin: the five pin macros and the busy-wait. -/
inductive Op where
  | setPinOut
  | setPinIn
  | setPinHigh
  | setPinLow
  | delay (us : Nat)
  | sample (level : Nat)
  deriving DecidableEq

/-- One line of the pin history: the operation, the interrupt flag it ran under and the
two port registers right after it. -/
structure Entry where
  op : Op
  ien : Bool
  dir : Nat
  out : Nat
  deriving DecidableEq

/-- The machine state seen by the driver. -/
structure State where
  /-- `DDRB` (`OW_PORT_DIR`), an 8-bit register. -/
  dir : Nat
  /-- `PORTB` (`OW_PORT_OUT`), an 8-bit register. -/
  out : Nat
  /-- The global interrupt enable flag of `SREG`. -/
  ien : Bool
  /-- How many times `PINB` (`OW_PORT_IN`) has been read so far. -/
  reads : Nat
  /-- `_temp.b[0]`. -/
  temp_b0 : Nat
  /-- `_temp.b[1]`. -/
  temp_b1 : Nat
  /-- `_resolution`. -/
  resolution : Nat
  /-- Ghost: the pin history, oldest entry first. -/
  trace : List Entry
  /-- Ghost: the argument of every call of `_io`, oldest first. -/
  slots : List Nat
  deriving DecidableEq

/-- The outside world: the value `PINB` shows at its `k`-th read. -/
abbrev Bus := Nat → Nat

/-- Appends one operation to the pin history, with the registers as they are now. -/
def State.log (s : State) (op : Op) : State :=
  { s with trace := s.trace ++ [Entry.mk op s.ien s.dir s.out] }

/-- The bit pattern of `~x` for a 16-bit `int`. -/
def bitNot16 (x : Nat) : Nat := 0xFFFF - x % 0x10000

/-- Reading a 16-bit pattern as `int16_t` (two's complement). -/
def toInt16 (n : Nat) : Int :=
  if n % 0x10000 < 0x8000 then (n % 0x10000 : Nat) else (n % 0x10000 : Nat) - 0x10000

/-! ## Pin macros of `ds18b20_tiny.h` -/

/-- `#define _setPinOut() OW_PORT_DIR |= OW_PIN_MASK`. -/
def _setPinOut (s : State) : State :=
  State.log { s with dir := (s.dir ||| OW_PIN_MASK) % 256 } Op.setPinOut

/-- `#define _setPinIn() OW_PORT_DIR &= ~OW_PIN_MASK`. -/
def _setPinIn (s : State) : State :=
  State.log { s with dir := (s.dir &&& bitNot16 OW_PIN_MASK) % 256 } Op.setPinIn

/-- `#define _setPinHigh() OW_PORT_OUT |= OW_PIN_MASK`. -/
def _setPinHigh (s : State) : State :=
  State.log { s with out := (s.out ||| OW_PIN_MASK) % 256 } Op.setPinHigh

/-- `#define _setPinLow() OW_PORT_OUT &= ~OW_PIN_MASK`. -/
def _setPinLow (s : State) : State :=
  State.log { s with out := (s.out &&& bitNot16 OW_PIN_MASK) % 256 } Op.setPinLow

/-- The value of `OW_PORT_IN & OW_PIN_MASK` at the `k`-th read of `PINB`. -/
def pinLevel (bus : Bus) (k : Nat) : Nat := (bus k % 256) &&& OW_PIN_MASK

/-- `#define _getPinState() (OW_PORT_IN & OW_PIN_MASK)`: one read of `PINB`. -/
def _getPinState (bus : Bus) (s : State) : Nat × State :=
  (pinLevel bus s.reads,
    State.log { s with reads := s.reads + 1 } (Op.sample (pinLevel bus s.reads)))

/-- Modelled from the spec: `_delay_us` of `<util/delay.h>`, which is not part of the
repository: "busy-wait of specified duration".  It changes nothing the driver can see;
the history records the duration. -/
def _delay_us (us : Nat) (s : State) : State :=
  State.log s (Op.delay us)

/-- Modelled from the spec: `ATOMIC_BLOCK(ATOMIC_RESTORESTATE)` of `<util/atomic.h>`,
which is not part of the repository: "execute `body` with pseudo-concurrent interruption
disabled, restoring prior interruption-enabled state afterward". -/
def ATOMIC_BLOCK {α : Type} (body : State → α × State) (s : State) : α × State :=
  let saved := s.ien
  let r := body { s with ien := false }
  (r.1, { r.2 with ien := saved })

/-! ## The functions of `ds18b20_tiny.c` -/

/-- `uint8_t _reset()`.  The initial `error = 0` is dead: the atomic block always
assigns `error`. -/
def _reset (bus : Bus) (s : State) : Nat × State :=
  let s := _setPinLow s
  let s := _setPinOut s
  let s := _delay_us 480 s
  let r := ATOMIC_BLOCK (fun s =>
    let s := _setPinIn s
    let s := _delay_us 64 s
    _getPinState bus s) s
  let error := r.1 % 256
  let s := r.2
  let s := _delay_us (480 - 64) s
  let p := _getPinState bus s
  let s := p.2
  let error := if p.1 = 0 then 1 else error
  (error, s)

/-- `uint8_t _io(uint8_t bit)`. -/
def _io (bus : Bus) (bit : Nat) (s : State) : Nat × State :=
  let bit := bit % 256
  let s := { s with slots := s.slots ++ [bit] }
  let r := ATOMIC_BLOCK (fun s =>
    let s := _setPinOut s
    let s := _delay_us 2 s
    if bit ≠ 0 then
      let s := _setPinIn s
      let s := _delay_us 10 s
      let p := _getPinState bus s
      let s := _delay_us 50 p.2
      (p.1 % 256, s)
    else
      let s := _delay_us 60 s
      let s := _setPinIn s
      (bit, s)) s
  let s := _delay_us 2 r.2
  (r.1, s)

/-- The loop of `_write` with `n` iterations left. -/
def _write_loop (bus : Bus) : Nat → Nat → State → State
  | 0, _, s => s
  | n + 1, byte, s =>
    let s := ( _io bus (byte &&& 1) s).2
    _write_loop bus n (byte >>> 1) s

/-- `void _write(uint8_t byte)`: `for (i = 0; i < 8; i++) { _io(byte & 1); byte >>= 1; }`. -/
def _write (bus : Bus) (byte : Nat) (s : State) : State :=
  _write_loop bus 8 (byte % 256) s

/-- The loop of `_read` with `n` iterations left, at loop index `i`. -/
def _read_loop (bus : Bus) : Nat → Nat → Nat → State → Nat × State
  | 0, _, byte, s => (byte, s)
  | n + 1, i, byte, s =>
    let r := _io bus 1 s
    _read_loop bus n (i + 1) ((byte ||| (r.1 <<< i)) % 256) r.2

/-- `uint8_t _read()`: `for (i = 0; i < 8; i++) { byte |= _io(1) << i; }`. -/
def _read (bus : Bus) (s : State) : Nat × State :=
  _read_loop bus 8 0 0 s

/-- `uint8_t _skipRom()`. -/
def _skipRom (bus : Bus) (s : State) : Nat × State :=
  let r := _reset bus s
  if r.1 ≠ 0 then (1, r.2)
  else
    let s := _write bus OW_CMD_SKIP_ROM r.2
    (0, s)

/-- `uint8_t DS18B20_SetResolution(uint8_t resolution)`.  The `||` chain is evaluated
left to right and stops at the first true operand. -/
def DS18B20_SetResolution (bus : Bus) (resolution : Nat) (s : State) : Nat × State :=
  if resolution < 9 then (1, s)
  else if resolution > 12 then (1, s)
  else
    let r := _skipRom bus s
    if r.1 ≠ 0 then (1, r.2)
    else
      let s := { r.2 with resolution := resolution }
      let s := _write bus DS18B20_CMD_WRITE_SCRATCHPAD s
      let s := _write bus 0 s
      let s := _write bus 0 s
      let s := _write bus ((resolution - 9) <<< 5) s
      (0, s)

/-- `uint8_t DS18B20_Init(uint8_t resolution)`. -/
def DS18B20_Init (bus : Bus) (resolution : Nat) (s : State) : Nat × State :=
  let s := _setPinIn s
  let s := _setPinLow s
  DS18B20_SetResolution bus resolution s

/-- `uint8_t DS18B20_ConvertTemp()`. -/
def DS18B20_ConvertTemp (bus : Bus) (s : State) : Nat × State :=
  let r := _skipRom bus s
  if r.1 ≠ 0 then (1, r.2)
  else
    let s := _write bus DS18B20_CMD_CONVERT_T r.2
    (0, s)

/-- `uint8_t DS18B20_IsTempReady()`. -/
def DS18B20_IsTempReady (bus : Bus) (s : State) : Nat × State :=
  _io bus 1 s

/-- `uint8_t DS18B20_ReadTemp()`. -/
def DS18B20_ReadTemp (bus : Bus) (s : State) : Nat × State :=
  let r := _skipRom bus s
  if r.1 ≠ 0 then (1, r.2)
  else
    let s := _write bus DS18B20_CMD_READ_SCRATCHPAD r.2
    let b := _read bus s
    let s := { b.2 with temp_b0 := b.1 }
    let b := _read bus s
    let s := { b.2 with temp_b1 := b.1 }
    (0, s)

/-- The member `_temp.w` of the union: the two bytes read as one little-endian
`int16_t`. -/
def _temp_w (s : State) : Int :=
  toInt16 (s.temp_b0 % 256 + 256 * (s.temp_b1 % 256))

/-- `float DS18B20_GetTemp()`: `return _temp.w / 16;`.  The division is the division of
`int` (truncating); its quotient lies in `[-2048, 2047]`, where the conversion to `float`
is exact, so the returned value is given as a rational number. -/
def DS18B20_GetTemp (s : State) : ℚ × State :=
  (((Int.tdiv (_temp_w s) 16 : Int) : ℚ), s)

/-- `uint16_t DS18B20_GetRawTemp()`: `return _temp.w;`, converted to `uint16_t`. -/
def DS18B20_GetRawTemp (s : State) : Nat × State :=
  (Int.toNat (_temp_w s % 0x10000), s)

/-! ## Reading the histories -/

/-- The operations of the pin history, without the register snapshots. -/
def ops (t : List Entry) : List Op := t.map Entry.op

/-- What an operation added to the pin history. -/
def newTrace (before after : State) : List Entry := after.trace.drop before.trace.length

/-- The time slots an operation issued: the arguments of its `_io` calls, in order. -/
def newSlots (before after : State) : List Nat := after.slots.drop before.slots.length

/-- The levels sampled in a pin history, in order. -/
def samples (t : List Entry) : List Nat :=
  t.filterMap (fun e => match e.op with
    | Op.sample l => some l
    | _ => none)

/-- The eight request bits of a byte on the wire, least significant first. -/
def byteSlots (b : Nat) : List Nat :=
  (List.range 8).map (fun i => (b >>> i) &&& 1)

/-- A state to evaluate the driver on: port B all inputs, interrupts enabled, nothing
stored yet. -/
def s0 : State := State.mk 0 0 true 0 0 0 0 [] []

/-- A bus with a responding device: the presence sample reads low, every later read
reads high. -/
def busPresent : Bus := fun k => if k = 0 then 0 else 1

/-- A bus without a device: the pull-up keeps the line high at every read. -/
def busIdle : Bus := fun _ => 1

/-- A state after an earlier successful cycle: resolution 12 stored, raw register
`0x0190`, the pin released with its latch low. -/
def s1 : State := State.mk 0 0 true 0 0x90 0x01 12 [] []

/-- A state whose raw register holds `0xFF5E`, the two's complement of -162. -/
def sNeg : State := State.mk 0 0 true 0 0x5E 0xFF 12 [] []

/-- A bus with a responding device that answers a scratchpad read issued from a state
with no earlier reads: presence pulse, then idle during the two command bytes (reads 1
to 11), then the bits of `lo` and of `hi`, least significant first. -/
def busTemp (lo hi : Nat) : Bus := fun k =>
  if k = 0 then 0
  else if k < 12 then 1
  else if k < 20 then (lo >>> (k - 12)) &&& 1
  else if k < 28 then (hi >>> (k - 20)) &&& 1
  else 1

/-- The pin history of `t` is the one of `s` followed by entries that all satisfy `Q`,
among them the samples `smp`. -/
def Adds (Q : Entry → Prop) (smp : List Nat) (s t : State) : Prop :=
  ∃ l, t.trace = s.trace ++ l ∧ samples l = smp ∧ ∀ e ∈ l, Q e

/-- The stored resolution is one of the four the sensor knows. -/
def resolutionValid (s : State) : Prop :=
  s.resolution = 9 ∨ s.resolution = 10 ∨ s.resolution = 11 ∨ s.resolution = 12

instance (s : State) : Decidable (resolutionValid s) := by
  unfold resolutionValid
  infer_instance

/-- A state in which every pin of port B is an output driving high. -/
def sLatched : State := State.mk 0xFF 0xFF true 0 0 0 0 [] []

/-- The entry does not record the drive-high macro. -/
def notHigh (e : Entry) : Prop := e.op ≠ Op.setPinHigh

/-- The answer of a loopback fixture: at the `k`-th read after read number `start` it shows the
`k`-th of the captured request bits (and an idle line once they are used up). -/
def busLoopback (captured : List Nat) (start : Nat) : Bus :=
  fun k => captured.getD (k - start) 1

/-- The microseconds of busy-wait recorded in a pin history. -/
def totalDelay (t : List Entry) : Nat :=
  (t.map (fun e => match e.op with
    | Op.delay us => us
    | _ => 0)).sum

/-- At this entry the pin is an output and its latch bit is 0: the master pulls the line
low. -/
def drivenLow (e : Entry) : Prop :=
  e.dir &&& OW_PIN_MASK ≠ 0 ∧ e.out &&& OW_PIN_MASK = 0

/-- At this entry the pin is an output and its latch bit is 1: the master would drive
the line high. -/
def drivenHigh (e : Entry) : Prop :=
  e.dir &&& OW_PIN_MASK ≠ 0 ∧ e.out &&& OW_PIN_MASK ≠ 0

/-- At this entry the pin is an input: the line is released. -/
def released (e : Entry) : Prop :=
  e.dir &&& OW_PIN_MASK = 0

/-- A state whose latch bit is low and whose other port bits are in use: direction
`0xA4`, latch `0x5A`, interrupts enabled. -/
def sBusy : State := State.mk 0xA4 0x5A true 0 0x90 0x01 12 [] []

/-- What `R |= OW_PIN_MASK` leaves in an 8-bit register that held `x`. -/
def pinSet (x : Nat) : Nat := (x ||| OW_PIN_MASK) % 256

/-- What `R &= ~OW_PIN_MASK` leaves in an 8-bit register that held `x`. -/
def pinClr (x : Nat) : Nat := (x &&& bitNot16 OW_PIN_MASK) % 256

/-- What an entry added by an operation started in state `s` looks like: it is not the
drive-high macro, it ran with interrupts disabled or with the flag of `s`, and the two
port registers differ from those of `s` at most by the pin's bit having been set or
cleared in the direction register and cleared in the output register. -/
def PortStep (s : State) (e : Entry) : Prop :=
  e.op ≠ Op.setPinHigh ∧ (e.ien = false ∨ e.ien = s.ien) ∧
  (e.dir = s.dir ∨ e.dir = pinSet s.dir ∨ e.dir = pinClr s.dir) ∧
  (e.out = s.out ∨ e.out = pinClr s.out)

/-- The state `t` is reached from `s` by steps that all satisfy `PortStep s`; the
interrupt flag is the one of `s`, the latch is untouched or has the pin's bit cleared,
and the direction register is untouched when nothing happened on the pin and has the
pin's bit cleared when something did. -/
def Walk (s t : State) : Prop :=
  t.ien = s.ien ∧ (t.out = s.out ∨ t.out = pinClr s.out) ∧
  ∃ l, t.trace = s.trace ++ l ∧ (∀ e ∈ l, PortStep s e) ∧
    ((l = [] ∧ t.dir = s.dir) ∨ (l ≠ [] ∧ t.dir = pinClr s.dir))

/-- The pin history of `t` is strictly longer than the one of `s`. -/
def Grew (s t : State) : Prop := s.trace.length < t.trace.length

/-- The operations of the driver: the seven public functions and the five private ones. -/
inductive Operation where
  | Init (resolution : Nat)
  | SetResolution (resolution : Nat)
  | ConvertTemp
  | IsTempReady
  | ReadTemp
  | GetTemp
  | GetRawTemp
  | reset
  | io (bit : Nat)
  | write (byte : Nat)
  | read
  | skipRom

/-- The state an operation leaves. -/
def Operation.after (bus : Bus) (op : Operation) (s : State) : State :=
  match op with
  | Operation.Init r => (DS18B20_Init bus r s).2
  | Operation.SetResolution r => (DS18B20_SetResolution bus r s).2
  | Operation.ConvertTemp => (DS18B20_ConvertTemp bus s).2
  | Operation.IsTempReady => (DS18B20_IsTempReady bus s).2
  | Operation.ReadTemp => (DS18B20_ReadTemp bus s).2
  | Operation.GetTemp => (DS18B20_GetTemp s).2
  | Operation.GetRawTemp => (DS18B20_GetRawTemp s).2
  | Operation.reset => ( _reset bus s).2
  | Operation.io b => ( _io bus b s).2
  | Operation.write b => _write bus b s
  | Operation.read => ( _read bus s).2
  | Operation.skipRom => ( _skipRom bus s).2

/-- The operations that touch the pin whatever happens: `DS18B20_Init`, `_reset`, `_io`
and everything built on them; `DS18B20_SetResolution` only with a resolution it accepts
(it returns before `_skipRom` otherwise), the getters never. -/
def Operation.touchesPin (op : Operation) : Prop :=
  match op with
  | Operation.SetResolution r => 9 ≤ r ∧ r ≤ 12
  | Operation.GetTemp => False
  | Operation.GetRawTemp => False
  | _ => True

/-- A state entered with interrupts disabled, as from inside an interrupt handler. -/
def sMasked : State := State.mk 0xA4 0x5A false 0 0x90 0x01 12 [] []

/-- The two getters of the driver. -/
inductive Getter where
  | temp
  | raw
  deriving DecidableEq

/-- What a getter hands back: the converted value or the raw register. -/
inductive Reading where
  | temp (value : ℚ)
  | raw (value : Nat)
  deriving DecidableEq

/-- One call of a getter: `DS18B20_GetTemp()` or `DS18B20_GetRawTemp()`. -/
def callGetter (g : Getter) (s : State) : Reading × State :=
  match g with
  | Getter.temp => (Reading.temp (DS18B20_GetTemp s).1, (DS18B20_GetTemp s).2)
  | Getter.raw => (Reading.raw (DS18B20_GetRawTemp s).1, (DS18B20_GetRawTemp s).2)

/-- A caller that calls the getters one after the other in the given order and collects
what they return. -/
def runGetters : List Getter → State → List Reading × State
  | [], s => ([], s)
  | g :: gs, s =>
    let r := callGetter g s
    let rest := runGetters gs r.2
    (r.1 :: rest.1, rest.2)

/-- The two globals of the driver: `_temp.b[0]`, `_temp.b[1]` and `_resolution`. -/
def sensor (s : State) : Nat × Nat × Nat := (s.temp_b0, s.temp_b1, s.resolution)

/-- The request bits of the loop of `_write`, as the loop produces them. -/
def wireBits : Nat → Nat → List Nat
  | 0, _ => []
  | n + 1, byte => (byte &&& 1) :: wireBits n (byte >>> 1)

/-- The accumulation of the loop of `_read` over the sampled levels `f 0, f 1, ...`. -/
def gather (f : Nat → Nat) : Nat → Nat → Nat → Nat
  | 0, _, byte => byte
  | n + 1, i, byte => gather (fun k => f (k + 1)) n (i + 1) ((byte ||| (f 0 <<< i)) % 256)

/-! ## Basic facts about the pin macros -/

theorem pinLevel_le_one (bus : Bus) (k : Nat) : pinLevel bus k ≤ 1 := by
  unfold pinLevel OW_PIN_MASK OW_PIN
  exact Nat.and_le_right

theorem pinLevel_mod (bus : Bus) (k : Nat) : pinLevel bus k % 256 = pinLevel bus k := by
  have h := pinLevel_le_one bus k
  omega

theorem and_one_mod (b : Nat) : (b &&& 1) % 256 = b &&& 1 := by
  have h : b &&& 1 ≤ 1 := Nat.and_le_right
  omega

/-! ## `_io`: one time slot -/

theorem io_slots (bus : Bus) (b : Nat) (s : State) :
    ( _io bus b s).2.slots = s.slots ++ [b % 256] := by
  unfold _io ATOMIC_BLOCK
  by_cases h : b % 256 = 0 <;> simp [h, _delay_us, _setPinIn, _setPinOut, _getPinState, State.log]

theorem io_sensor (bus : Bus) (b : Nat) (s : State) :
    sensor ( _io bus b s).2 = sensor s := by
  unfold _io ATOMIC_BLOCK
  by_cases h : b % 256 = 0 <;>
    simp [h, sensor, _delay_us, _setPinIn, _setPinOut, _getPinState, State.log]

theorem io_ien (bus : Bus) (b : Nat) (s : State) :
    ( _io bus b s).2.ien = s.ien := by
  unfold _io ATOMIC_BLOCK
  by_cases h : b % 256 = 0 <;>
    simp [h, _delay_us, _setPinIn, _setPinOut, _getPinState, State.log]

theorem io_reads (bus : Bus) (b : Nat) (s : State) :
    ( _io bus b s).2.reads = s.reads + (if b % 256 = 0 then 0 else 1) := by
  unfold _io ATOMIC_BLOCK
  by_cases h : b % 256 = 0 <;>
    simp [h, _delay_us, _setPinIn, _setPinOut, _getPinState, State.log]

theorem io_result (bus : Bus) (b : Nat) (s : State) :
    ( _io bus b s).1 = if b % 256 = 0 then 0 else pinLevel bus s.reads := by
  unfold _io ATOMIC_BLOCK
  by_cases h : b % 256 = 0 <;>
    simp [h, _delay_us, _setPinIn, _setPinOut, _getPinState, State.log, pinLevel_mod]

/-! ## `_reset` -/

theorem reset_result (bus : Bus) (s : State) :
    ( _reset bus s).1 =
      if pinLevel bus (s.reads + 1) = 0 then 1 else pinLevel bus s.reads := by
  simp [_reset, ATOMIC_BLOCK, _delay_us, _setPinIn, _setPinOut, _setPinLow, _getPinState,
    State.log, pinLevel_mod]

theorem reset_slots (bus : Bus) (s : State) : ( _reset bus s).2.slots = s.slots := by
  simp [_reset, ATOMIC_BLOCK, _delay_us, _setPinIn, _setPinOut, _setPinLow, _getPinState,
    State.log]

theorem reset_sensor (bus : Bus) (s : State) : sensor ( _reset bus s).2 = sensor s := by
  simp [_reset, sensor, ATOMIC_BLOCK, _delay_us, _setPinIn, _setPinOut, _setPinLow,
    _getPinState, State.log]

theorem reset_reads (bus : Bus) (s : State) : ( _reset bus s).2.reads = s.reads + 2 := by
  simp [_reset, ATOMIC_BLOCK, _delay_us, _setPinIn, _setPinOut, _setPinLow, _getPinState,
    State.log]

theorem reset_ien (bus : Bus) (s : State) : ( _reset bus s).2.ien = s.ien := by
  simp [_reset, ATOMIC_BLOCK, _delay_us, _setPinIn, _setPinOut, _setPinLow, _getPinState,
    State.log]

theorem reset_ops (bus : Bus) (s : State) :
    ops ( _reset bus s).2.trace = ops s.trace ++
      [Op.setPinLow, Op.setPinOut, Op.delay 480, Op.setPinIn, Op.delay 64,
        Op.sample (pinLevel bus s.reads), Op.delay 416,
        Op.sample (pinLevel bus (s.reads + 1))] := by
  simp [_reset, ops, ATOMIC_BLOCK, _delay_us, _setPinIn, _setPinOut, _setPinLow,
    _getPinState, State.log]

/-! ## `_write`: eight slots, no state -/

theorem write_loop_slots (bus : Bus) (n : Nat) :
    ∀ (byte : Nat) (s : State),
      ( _write_loop bus n byte s).slots = s.slots ++ wireBits n byte := by
  induction n with
  | zero => intro byte s; simp [_write_loop, wireBits]
  | succ n ih =>
    intro byte s
    simp only [_write_loop, wireBits, ih, io_slots, and_one_mod]
    simp

theorem write_loop_sensor (bus : Bus) (n : Nat) :
    ∀ (byte : Nat) (s : State), sensor ( _write_loop bus n byte s) = sensor s := by
  induction n with
  | zero => intro byte s; simp [_write_loop]
  | succ n ih =>
    intro byte s
    simp [_write_loop, ih, io_sensor]

theorem write_loop_ien (bus : Bus) (n : Nat) :
    ∀ (byte : Nat) (s : State), ( _write_loop bus n byte s).ien = s.ien := by
  induction n with
  | zero => intro byte s; simp [_write_loop]
  | succ n ih =>
    intro byte s
    simp [_write_loop, ih, io_ien]

theorem write_loop_reads (bus : Bus) (n : Nat) :
    ∀ (byte : Nat) (s : State),
      ( _write_loop bus n byte s).reads = s.reads + (wireBits n byte).sum := by
  induction n with
  | zero => intro byte s; simp [_write_loop, wireBits]
  | succ n ih =>
    intro byte s
    have h : byte &&& 1 ≤ 1 := Nat.and_le_right
    simp only [_write_loop, wireBits, ih, io_reads, and_one_mod, List.sum_cons]
    split <;> omega

set_option maxRecDepth 100000 in
theorem wireBits_eq_byteSlots : ∀ b < 256, wireBits 8 b = byteSlots b := by
  decide

theorem write_slots (bus : Bus) (byte : Nat) (s : State) :
    ( _write bus byte s).slots = s.slots ++ byteSlots (byte % 256) := by
  unfold _write
  rw [write_loop_slots, wireBits_eq_byteSlots _ (Nat.mod_lt _ (by decide))]

theorem write_sensor (bus : Bus) (byte : Nat) (s : State) :
    sensor ( _write bus byte s) = sensor s :=
  write_loop_sensor bus 8 _ s

theorem write_ien (bus : Bus) (byte : Nat) (s : State) : ( _write bus byte s).ien = s.ien :=
  write_loop_ien bus 8 _ s

theorem write_reads (bus : Bus) (byte : Nat) (s : State) :
    ( _write bus byte s).reads = s.reads + (wireBits 8 (byte % 256)).sum :=
  write_loop_reads bus 8 _ s

/-! ## `_read`: eight read slots -/

theorem read_loop_slots (bus : Bus) (n : Nat) :
    ∀ (i byte : Nat) (s : State),
      ( _read_loop bus n i byte s).2.slots = s.slots ++ List.replicate n 1 := by
  induction n with
  | zero => intro i byte s; simp [_read_loop]
  | succ n ih =>
    intro i byte s
    simp [_read_loop, ih, io_slots, List.replicate_succ]

theorem read_loop_sensor (bus : Bus) (n : Nat) :
    ∀ (i byte : Nat) (s : State), sensor ( _read_loop bus n i byte s).2 = sensor s := by
  induction n with
  | zero => intro i byte s; simp [_read_loop]
  | succ n ih =>
    intro i byte s
    simp [_read_loop, ih, io_sensor]

theorem read_loop_ien (bus : Bus) (n : Nat) :
    ∀ (i byte : Nat) (s : State), ( _read_loop bus n i byte s).2.ien = s.ien := by
  induction n with
  | zero => intro i byte s; simp [_read_loop]
  | succ n ih =>
    intro i byte s
    simp [_read_loop, ih, io_ien]

theorem read_loop_reads (bus : Bus) (n : Nat) :
    ∀ (i byte : Nat) (s : State), ( _read_loop bus n i byte s).2.reads = s.reads + n := by
  induction n with
  | zero => intro i byte s; simp [_read_loop]
  | succ n ih =>
    intro i byte s
    simp only [_read_loop, ih, io_reads]
    simp
    omega

theorem read_loop_result (bus : Bus) (n : Nat) :
    ∀ (i byte : Nat) (s : State),
      ( _read_loop bus n i byte s).1 =
        gather (fun k => pinLevel bus (s.reads + k)) n i byte := by
  induction n with
  | zero => intro i byte s; simp [_read_loop, gather]
  | succ n ih =>
    intro i byte s
    simp only [_read_loop, gather, ih, io_reads, io_result]
    simp [Nat.add_assoc, Nat.add_comm 1]

theorem gather_congr (n : Nat) :
    ∀ (f g : Nat → Nat) (i byte : Nat), (∀ k < n, f k = g k) →
      gather f n i byte = gather g n i byte := by
  induction n with
  | zero => intro f g i byte _; rfl
  | succ n ih =>
    intro f g i byte h
    simp only [gather]
    rw [h 0 (Nat.succ_pos n)]
    exact ih _ _ _ _ (fun k hk => h (k + 1) (Nat.succ_lt_succ hk))

set_option maxRecDepth 100000 in
theorem gather_bits : ∀ b < 256, gather (fun k => (b >>> k) &&& 1) 8 0 0 = b := by
  decide

theorem read_slots (bus : Bus) (s : State) :
    ( _read bus s).2.slots = s.slots ++ List.replicate 8 1 :=
  read_loop_slots bus 8 0 0 s

theorem read_sensor (bus : Bus) (s : State) : sensor ( _read bus s).2 = sensor s :=
  read_loop_sensor bus 8 0 0 s

theorem read_ien (bus : Bus) (s : State) : ( _read bus s).2.ien = s.ien :=
  read_loop_ien bus 8 0 0 s

theorem read_reads (bus : Bus) (s : State) : ( _read bus s).2.reads = s.reads + 8 :=
  read_loop_reads bus 8 0 0 s

/-- On a bus that answers the eight read slots with the bits of `b`, least significant
first, `_read` returns `b`. -/
theorem read_result_of_bits (bus : Bus) (s : State) (b : Nat) (hb : b < 256)
    (h : ∀ k < 8, pinLevel bus (s.reads + k) = (b >>> k) &&& 1) :
    ( _read bus s).1 = b := by
  unfold _read
  rw [read_loop_result, gather_congr 8 _ (fun k => (b >>> k) &&& 1) 0 0 h]
  exact gather_bits b hb

/-! ## `_skipRom` and the commands built on it -/

theorem skipRom_fail (bus : Bus) (s : State) (h : ( _reset bus s).1 ≠ 0) :
    _skipRom bus s = (1, ( _reset bus s).2) := by
  simp [_skipRom, h]

theorem skipRom_ok (bus : Bus) (s : State) (h : ( _reset bus s).1 = 0) :
    _skipRom bus s = (0, _write bus 0xCC ( _reset bus s).2) := by
  simp [_skipRom, h, OW_CMD_SKIP_ROM]

theorem newSlots_of_append (s t : State) (l : List Nat) (h : t.slots = s.slots ++ l) :
    newSlots s t = l := by
  simp [newSlots, h]

theorem newTrace_of_append (s t : State) (l : List Entry) (h : t.trace = s.trace ++ l) :
    newTrace s t = l := by
  simp [newTrace, h]

theorem setResolution_ok (bus : Bus) (r : Nat) (s : State) (h9 : 9 ≤ r) (h12 : r ≤ 12)
    (h : ( _reset bus s).1 = 0) :
    DS18B20_SetResolution bus r s =
      (0, _write bus ((r - 9) <<< 5) ( _write bus 0 ( _write bus 0 ( _write bus 0x4E
        { _write bus 0xCC ( _reset bus s).2 with resolution := r })))) := by
  have h1 : ¬ r < 9 := by omega
  have h2 : ¬ r > 12 := by omega
  simp [DS18B20_SetResolution, h1, h2, skipRom_ok bus s h, DS18B20_CMD_WRITE_SCRATCHPAD]

theorem setResolution_fail (bus : Bus) (r : Nat) (s : State) (h9 : 9 ≤ r) (h12 : r ≤ 12)
    (h : ( _reset bus s).1 ≠ 0) :
    DS18B20_SetResolution bus r s = (1, ( _reset bus s).2) := by
  have h1 : ¬ r < 9 := by omega
  have h2 : ¬ r > 12 := by omega
  simp [DS18B20_SetResolution, h1, h2, skipRom_fail bus s h]

theorem convertTemp_ok (bus : Bus) (s : State) (h : ( _reset bus s).1 = 0) :
    DS18B20_ConvertTemp bus s = (0, _write bus 0x44 ( _write bus 0xCC ( _reset bus s).2)) := by
  simp [DS18B20_ConvertTemp, skipRom_ok bus s h, DS18B20_CMD_CONVERT_T]

theorem convertTemp_fail (bus : Bus) (s : State) (h : ( _reset bus s).1 ≠ 0) :
    DS18B20_ConvertTemp bus s = (1, ( _reset bus s).2) := by
  simp [DS18B20_ConvertTemp, skipRom_fail bus s h]

theorem readTemp_fail (bus : Bus) (s : State) (h : ( _reset bus s).1 ≠ 0) :
    DS18B20_ReadTemp bus s = (1, ( _reset bus s).2) := by
  simp [DS18B20_ReadTemp, skipRom_fail bus s h]

theorem rawTemp_eq (s : State) :
    (DS18B20_GetRawTemp s).1 = s.temp_b0 % 256 + 256 * (s.temp_b1 % 256) := by
  unfold DS18B20_GetRawTemp _temp_w toInt16
  simp only
  split <;> omega

theorem sensor_resolution (a b : State) (h : sensor a = sensor b) :
    a.resolution = b.resolution :=
  congrArg (fun t => t.2.2) h

theorem readTemp_ok (bus : Bus) (s : State) (h : ( _reset bus s).1 = 0) :
    DS18B20_ReadTemp bus s =
      (0, { ( _read bus { ( _read bus ( _write bus 0xBE ( _write bus 0xCC ( _reset bus s).2))).2
              with temp_b0 := ( _read bus ( _write bus 0xBE
                ( _write bus 0xCC ( _reset bus s).2))).1 }).2
            with temp_b1 := ( _read bus { ( _read bus ( _write bus 0xBE
                ( _write bus 0xCC ( _reset bus s).2))).2
              with temp_b0 := ( _read bus ( _write bus 0xBE
                ( _write bus 0xCC ( _reset bus s).2))).1 }).1 }) := by
  simp [DS18B20_ReadTemp, skipRom_ok bus s h, DS18B20_CMD_READ_SCRATCHPAD]

/-- Where the answer to a scratchpad read sits on the bus: the two samples of the reset,
four read-type slots for the one-bits of 0xCC and six for those of 0xBE come first. -/
theorem readTemp_command_reads (bus : Bus) (s : State) :
    ( _write bus 0xBE ( _write bus 0xCC ( _reset bus s).2)).reads = s.reads + 12 := by
  rw [write_reads, write_reads, reset_reads]
  have h1 : (wireBits 8 (0xCC % 256)).sum = 4 := by decide
  have h2 : (wireBits 8 (0xBE % 256)).sum = 6 := by decide
  omega

/-! ## The conversion of the raw register -/

theorem temp_w_range (s : State) : -32768 ≤ _temp_w s ∧ _temp_w s ≤ 32767 := by
  unfold _temp_w toInt16
  split <;> omega

theorem tdiv16_of_nonneg (w : Int) (h : 0 ≤ w) : w.tdiv 16 = w / 16 :=
  Int.tdiv_eq_ediv h (by decide)

theorem tdiv16_of_neg (w : Int) (h : w < 0) : w.tdiv 16 = -((-w) / 16) := by
  have e : w = -(-w) := by omega
  rw [e, Int.neg_tdiv, Int.tdiv_eq_ediv (by omega) (by decide)]
  simp

theorem temp_w_s1 : _temp_w s1 = 400 := by decide

theorem temp_w_sNeg : _temp_w sNeg = -162 := by decide

/-! ## How the pin history grows -/

theorem Adds.refl (Q : Entry → Prop) (s : State) : Adds Q [] s s :=
  ⟨[], by simp, rfl, by simp⟩

theorem Adds.trans {Q : Entry → Prop} {a b : List Nat} {s t u : State}
    (h1 : Adds Q a s t) (h2 : Adds Q b t u) : Adds Q (a ++ b) s u := by
  obtain ⟨l1, e1, m1, q1⟩ := h1
  obtain ⟨l2, e2, m2, q2⟩ := h2
  refine ⟨l1 ++ l2, by rw [e2, e1, List.append_assoc], ?_, ?_⟩
  · rw [← m1, ← m2]
    simp [samples]
  · intro e he
    rcases List.mem_append.mp he with h | h
    · exact q1 e h
    · exact q2 e h

theorem Adds.newTrace {Q : Entry → Prop} {a : List Nat} {s t : State} (h : Adds Q a s t) :
    samples (newTrace s t) = a ∧ ∀ e ∈ newTrace s t, Q e := by
  obtain ⟨l, e, m, q⟩ := h
  rw [newTrace_of_append s t l e]
  exact ⟨m, q⟩

/-- What a time slot adds to the pin history when the request bit is 0. -/
theorem io_trace_zero (bus : Bus) (b : Nat) (s : State) (h : b % 256 = 0) :
    ( _io bus b s).2.trace = s.trace ++
      [Entry.mk Op.setPinOut false ((s.dir ||| OW_PIN_MASK) % 256) s.out,
       Entry.mk (Op.delay 2) false ((s.dir ||| OW_PIN_MASK) % 256) s.out,
       Entry.mk (Op.delay 60) false ((s.dir ||| OW_PIN_MASK) % 256) s.out,
       Entry.mk Op.setPinIn false
        ((((s.dir ||| OW_PIN_MASK) % 256) &&& bitNot16 OW_PIN_MASK) % 256) s.out,
       Entry.mk (Op.delay 2) s.ien
        ((((s.dir ||| OW_PIN_MASK) % 256) &&& bitNot16 OW_PIN_MASK) % 256) s.out] := by
  simp [_io, ATOMIC_BLOCK, h, _delay_us, _setPinIn, _setPinOut, State.log]

/-- What a time slot adds to the pin history when the request bit is not 0. -/
theorem io_trace_one (bus : Bus) (b : Nat) (s : State) (h : b % 256 ≠ 0) :
    ( _io bus b s).2.trace = s.trace ++
      [Entry.mk Op.setPinOut false ((s.dir ||| OW_PIN_MASK) % 256) s.out,
       Entry.mk (Op.delay 2) false ((s.dir ||| OW_PIN_MASK) % 256) s.out,
       Entry.mk Op.setPinIn false
        ((((s.dir ||| OW_PIN_MASK) % 256) &&& bitNot16 OW_PIN_MASK) % 256) s.out,
       Entry.mk (Op.delay 10) false
        ((((s.dir ||| OW_PIN_MASK) % 256) &&& bitNot16 OW_PIN_MASK) % 256) s.out,
       Entry.mk (Op.sample (pinLevel bus s.reads)) false
        ((((s.dir ||| OW_PIN_MASK) % 256) &&& bitNot16 OW_PIN_MASK) % 256) s.out,
       Entry.mk (Op.delay 50) false
        ((((s.dir ||| OW_PIN_MASK) % 256) &&& bitNot16 OW_PIN_MASK) % 256) s.out,
       Entry.mk (Op.delay 2) s.ien
        ((((s.dir ||| OW_PIN_MASK) % 256) &&& bitNot16 OW_PIN_MASK) % 256) s.out] := by
  simp [_io, ATOMIC_BLOCK, h, _delay_us, _setPinIn, _setPinOut, _getPinState, State.log]

/-- What `_reset` adds to the pin history. -/
theorem reset_trace (bus : Bus) (s : State) :
    ( _reset bus s).2.trace = s.trace ++
      [Entry.mk Op.setPinLow s.ien s.dir ((s.out &&& bitNot16 OW_PIN_MASK) % 256),
       Entry.mk Op.setPinOut s.ien ((s.dir ||| OW_PIN_MASK) % 256)
        ((s.out &&& bitNot16 OW_PIN_MASK) % 256),
       Entry.mk (Op.delay 480) s.ien ((s.dir ||| OW_PIN_MASK) % 256)
        ((s.out &&& bitNot16 OW_PIN_MASK) % 256),
       Entry.mk Op.setPinIn false
        ((((s.dir ||| OW_PIN_MASK) % 256) &&& bitNot16 OW_PIN_MASK) % 256)
        ((s.out &&& bitNot16 OW_PIN_MASK) % 256),
       Entry.mk (Op.delay 64) false
        ((((s.dir ||| OW_PIN_MASK) % 256) &&& bitNot16 OW_PIN_MASK) % 256)
        ((s.out &&& bitNot16 OW_PIN_MASK) % 256),
       Entry.mk (Op.sample (pinLevel bus s.reads)) false
        ((((s.dir ||| OW_PIN_MASK) % 256) &&& bitNot16 OW_PIN_MASK) % 256)
        ((s.out &&& bitNot16 OW_PIN_MASK) % 256),
       Entry.mk (Op.delay 416) s.ien
        ((((s.dir ||| OW_PIN_MASK) % 256) &&& bitNot16 OW_PIN_MASK) % 256)
        ((s.out &&& bitNot16 OW_PIN_MASK) % 256),
       Entry.mk (Op.sample (pinLevel bus (s.reads + 1))) s.ien
        ((((s.dir ||| OW_PIN_MASK) % 256) &&& bitNot16 OW_PIN_MASK) % 256)
        ((s.out &&& bitNot16 OW_PIN_MASK) % 256)] := by
  simp [_reset, ATOMIC_BLOCK, _delay_us, _setPinIn, _setPinOut, _setPinLow, _getPinState,
    State.log]

theorem io_adds (bus : Bus) (b : Nat) (s : State) :
    Adds notHigh (if b % 256 = 0 then [] else [pinLevel bus s.reads]) s ( _io bus b s).2 := by
  by_cases h : b % 256 = 0
  · refine ⟨_, io_trace_zero bus b s h, by simp [samples, h], ?_⟩
    intro e he
    simp at he
    rcases he with rfl | rfl | rfl | rfl | rfl <;> simp [notHigh]
  · refine ⟨_, io_trace_one bus b s h, by simp [samples, h], ?_⟩
    intro e he
    simp at he
    rcases he with rfl | rfl | rfl | rfl | rfl | rfl | rfl <;> simp [notHigh]

theorem reset_adds (bus : Bus) (s : State) :
    Adds notHigh [pinLevel bus s.reads, pinLevel bus (s.reads + 1)] s ( _reset bus s).2 := by
  refine ⟨_, reset_trace bus s, by simp [samples], ?_⟩
  intro e he
  simp at he
  rcases he with rfl | rfl | rfl | rfl | rfl | rfl | rfl | rfl <;> simp [notHigh]

theorem write_loop_adds (bus : Bus) (n : Nat) :
    ∀ (byte : Nat) (s : State), ∃ smp, Adds notHigh smp s ( _write_loop bus n byte s) := by
  induction n with
  | zero => intro byte s; exact ⟨[], Adds.refl _ s⟩
  | succ n ih =>
    intro byte s
    obtain ⟨smp, h⟩ := ih (byte >>> 1) ( _io bus (byte &&& 1) s).2
    exact ⟨_, (io_adds bus (byte &&& 1) s).trans h⟩

theorem write_adds (bus : Bus) (byte : Nat) (s : State) :
    ∃ smp, Adds notHigh smp s ( _write bus byte s) :=
  write_loop_adds bus 8 _ s

theorem read_loop_adds (bus : Bus) (n : Nat) :
    ∀ (i byte : Nat) (s : State),
      Adds notHigh ((List.range n).map (fun k => pinLevel bus (s.reads + k))) s
        ( _read_loop bus n i byte s).2 := by
  induction n with
  | zero => intro i byte s; exact Adds.refl _ s
  | succ n ih =>
    intro i byte s
    have h1 := io_adds bus 1 s
    have h2 := ih (i + 1) ((byte ||| (( _io bus 1 s).1 <<< i)) % 256) ( _io bus 1 s).2
    have h := h1.trans h2
    have e : (if 1 % 256 = 0 then [] else [pinLevel bus s.reads]) ++
        (List.range n).map (fun k => pinLevel bus (( _io bus 1 s).2.reads + k)) =
        (List.range (n + 1)).map (fun k => pinLevel bus (s.reads + k)) := by
      rw [io_reads, List.range_succ_eq_map]
      simp [Function.comp_def, Nat.add_assoc, Nat.add_comm 1]
    rw [e] at h
    exact h

theorem read_adds (bus : Bus) (s : State) :
    Adds notHigh ((List.range 8).map (fun k => pinLevel bus (s.reads + k))) s
      ( _read bus s).2 :=
  read_loop_adds bus 8 0 0 s

theorem adds_of_trace_eq (Q : Entry → Prop) (s t : State) (h : t.trace = s.trace) :
    Adds Q [] s t :=
  ⟨[], by simp [h], rfl, by simp⟩

theorem adds_chain {Q : Entry → Prop} {s t u : State}
    (h1 : ∃ a, Adds Q a s t) (h2 : ∃ b, Adds Q b t u) : ∃ c, Adds Q c s u := by
  obtain ⟨a, ha⟩ := h1
  obtain ⟨b, hb⟩ := h2
  exact ⟨a ++ b, ha.trans hb⟩

theorem setPinIn_adds (s : State) : ∃ a, Adds notHigh a s ( _setPinIn s) :=
  ⟨[], [Entry.mk Op.setPinIn s.ien ((s.dir &&& bitNot16 OW_PIN_MASK) % 256) s.out],
    by simp [_setPinIn, State.log], by simp [samples], by simp [notHigh]⟩

theorem setPinLow_adds (s : State) : ∃ a, Adds notHigh a s ( _setPinLow s) :=
  ⟨[], [Entry.mk Op.setPinLow s.ien s.dir ((s.out &&& bitNot16 OW_PIN_MASK) % 256)],
    by simp [_setPinLow, State.log], by simp [samples], by simp [notHigh]⟩

theorem skipRom_adds (bus : Bus) (s : State) : ∃ a, Adds notHigh a s ( _skipRom bus s).2 := by
  by_cases h : ( _reset bus s).1 = 0
  · rw [skipRom_ok bus s h]
    exact adds_chain ⟨_, reset_adds bus s⟩ (write_adds bus 0xCC _)
  · rw [skipRom_fail bus s h]
    exact ⟨_, reset_adds bus s⟩

theorem setResolution_adds (bus : Bus) (r : Nat) (s : State) :
    ∃ a, Adds notHigh a s (DS18B20_SetResolution bus r s).2 := by
  by_cases hv : 9 ≤ r ∧ r ≤ 12
  · by_cases h : ( _reset bus s).1 = 0
    · rw [setResolution_ok bus r s hv.1 hv.2 h]
      have h0 : ∃ a, Adds notHigh a s
          { _write bus 0xCC ( _reset bus s).2 with resolution := r } :=
        adds_chain (adds_chain ⟨_, reset_adds bus s⟩ (write_adds bus 0xCC _))
          ⟨[], adds_of_trace_eq _ _ _ rfl⟩
      exact adds_chain (adds_chain (adds_chain (adds_chain h0
        (write_adds bus _ _)) (write_adds bus _ _)) (write_adds bus _ _))
        (write_adds bus _ _)
    · rw [setResolution_fail bus r s hv.1 hv.2 h]
      exact ⟨_, reset_adds bus s⟩
  · have e : DS18B20_SetResolution bus r s = (1, s) := by
      unfold DS18B20_SetResolution
      by_cases h1 : r < 9
      · simp [h1]
      · have h2 : r > 12 := by omega
        simp [h1, h2]
    rw [e]
    exact ⟨[], Adds.refl _ s⟩

theorem skipRom_sensor (bus : Bus) (s : State) : sensor ( _skipRom bus s).2 = sensor s := by
  by_cases h : ( _reset bus s).1 = 0
  · rw [skipRom_ok bus s h, write_sensor, reset_sensor]
  · rw [skipRom_fail bus s h, reset_sensor]

/-- The two ways `DS18B20_SetResolution` can end. -/
theorem setResolution_effect (bus : Bus) (r : Nat) (s : State) :
    ((DS18B20_SetResolution bus r s).1 = 1 ∧
      (DS18B20_SetResolution bus r s).2.resolution = s.resolution) ∨
    ((DS18B20_SetResolution bus r s).1 = 0 ∧ (9 ≤ r ∧ r ≤ 12) ∧
      (DS18B20_SetResolution bus r s).2.resolution = r) := by
  by_cases hv : 9 ≤ r ∧ r ≤ 12
  · by_cases h : ( _reset bus s).1 = 0
    · right
      rw [setResolution_ok bus r s hv.1 hv.2 h]
      refine ⟨rfl, hv, ?_⟩
      have h1 := sensor_resolution _ _ (write_sensor bus ((r - 9) <<< 5) ( _write bus 0
        ( _write bus 0 ( _write bus 0x4E
          { _write bus 0xCC ( _reset bus s).2 with resolution := r }))))
      have h2 := sensor_resolution _ _ (write_sensor bus 0 ( _write bus 0 ( _write bus 0x4E
          { _write bus 0xCC ( _reset bus s).2 with resolution := r })))
      have h3 := sensor_resolution _ _ (write_sensor bus 0 ( _write bus 0x4E
          { _write bus 0xCC ( _reset bus s).2 with resolution := r }))
      have h4 := sensor_resolution _ _ (write_sensor bus 0x4E
          { _write bus 0xCC ( _reset bus s).2 with resolution := r })
      simp only [] at h1 h2 h3 h4 ⊢
      rw [h1, h2, h3, h4]
    · left
      rw [setResolution_fail bus r s hv.1 hv.2 h]
      exact ⟨rfl, sensor_resolution _ _ (reset_sensor bus s)⟩
  · left
    have e : DS18B20_SetResolution bus r s = (1, s) := by
      unfold DS18B20_SetResolution
      by_cases h1 : r < 9
      · simp [h1]
      · have h2 : r > 12 := by omega
        simp [h1, h2]
    rw [e]
    exact ⟨rfl, rfl⟩

theorem and_bitNot_mask (d : Nat) :
    ((d &&& bitNot16 OW_PIN_MASK) % 256) &&& OW_PIN_MASK = 0 := by
  have e : bitNot16 OW_PIN_MASK = 65534 := by decide
  have m : OW_PIN_MASK = 1 := by decide
  rw [e, m, Nat.and_one_is_mod, Nat.mod_mod_of_dvd _ (by decide : 2 ∣ 256)]
  have h : (d &&& 65534).testBit 0 = false := by
    rw [Nat.testBit_and]
    simp
  rw [Nat.testBit_zero] at h
  rcases Nat.mod_two_eq_zero_or_one (d &&& 65534) with h0 | h1
  · exact h0
  · simp [h1] at h

/-! ## The byte layer, bit by bit -/

set_option maxRecDepth 1000000 in
set_option synthInstance.maxSize 100000 in
set_option synthInstance.maxHeartbeats 2000000 in
theorem gather_levels : ∀ l0 < 2, ∀ l1 < 2, ∀ l2 < 2, ∀ l3 < 2, ∀ l4 < 2, ∀ l5 < 2,
    ∀ l6 < 2, ∀ l7 < 2,
    gather (fun k => [l0, l1, l2, l3, l4, l5, l6, l7].getD k 0) 8 0 0 =
      l0 + 2 * l1 + 4 * l2 + 8 * l3 + 16 * l4 + 32 * l5 + 64 * l6 + 128 * l7 := by
  decide

theorem read_result_sum (bus : Bus) (s : State) :
    ( _read bus s).1 =
      ((List.range 8).map (fun i => pinLevel bus (s.reads + i) * 2 ^ i)).sum := by
  unfold _read
  rw [read_loop_result]
  have hl : ∀ k, pinLevel bus (s.reads + k) < 2 := fun k =>
    Nat.lt_succ_of_le (pinLevel_le_one bus _)
  have hc := gather_congr 8 (fun k => pinLevel bus (s.reads + k))
    (fun k => [pinLevel bus (s.reads + 0), pinLevel bus (s.reads + 1),
      pinLevel bus (s.reads + 2), pinLevel bus (s.reads + 3), pinLevel bus (s.reads + 4),
      pinLevel bus (s.reads + 5), pinLevel bus (s.reads + 6),
      pinLevel bus (s.reads + 7)].getD k 0) 0 0
    (by intro k hk; interval_cases k <;> rfl)
  rw [hc, gather_levels _ (hl 0) _ (hl 1) _ (hl 2) _ (hl 3) _ (hl 4) _ (hl 5) _ (hl 6) _ (hl 7)]
  simp only [List.range, List.range.loop, List.map, List.sum_cons, List.sum_nil]
  omega

theorem byteSlots_eq (B : Nat) :
    byteSlots B = (List.range 8).map (fun i => B / 2 ^ i % 2) := by
  simp [byteSlots, Nat.shiftRight_eq_div_pow, Nat.and_one_is_mod]

theorem or_mask (d : Nat) : ((d ||| OW_PIN_MASK) % 256) &&& OW_PIN_MASK = 1 := by
  have m : OW_PIN_MASK = 1 := by decide
  rw [m, Nat.and_one_is_mod, Nat.mod_mod_of_dvd _ (by decide : 2 ∣ 256)]
  have h : (d ||| 1).testBit 0 = true := by
    rw [Nat.testBit_or]
    simp
  rw [Nat.testBit_zero] at h
  rcases Nat.mod_two_eq_zero_or_one (d ||| 1) with h0 | h1
  · simp [h0] at h
  · exact h1

/-! ## The port registers along an operation -/

theorem one_testBit (i : Nat) : (1 : Nat).testBit i = decide (i = 0) := by
  rcases Nat.eq_zero_or_pos i with h | h
  · subst h; simp
  · rw [Nat.testBit_to_div_mod]
    have : 1 / 2 ^ i = 0 := Nat.div_eq_of_lt (Nat.one_lt_two_pow (by omega))
    have hi : i ≠ 0 := by omega
    simp [this, hi]

theorem pinSet_eq (d : Nat) : pinSet d = (d % 256) ||| 1 := by
  show (d ||| 1) % 256 = (d % 256) ||| 1
  apply Nat.eq_of_testBit_eq
  intro i
  have e : (256 : Nat) = 2 ^ 8 := by decide
  rw [e, Nat.testBit_mod_two_pow, Nat.testBit_or, Nat.testBit_or, Nat.testBit_mod_two_pow,
    one_testBit]
  by_cases h0 : i = 0
  · subst h0; simp
  · simp [h0]

theorem pinClr_eq (d : Nat) : pinClr d = (d % 256) &&& 254 := by
  show (d &&& 65534) % 256 = (d % 256) &&& 254
  apply Nat.eq_of_testBit_eq
  intro i
  have e : (256 : Nat) = 2 ^ 8 := by decide
  have e2 : (254 : Nat) = 65534 % 2 ^ 8 := by decide
  rw [e2, e, Nat.testBit_mod_two_pow, Nat.testBit_and, Nat.testBit_and,
    Nat.testBit_mod_two_pow, Nat.testBit_mod_two_pow]
  cases decide (i < 8) <;> simp

set_option maxRecDepth 1000000 in
theorem pin_bytes : ∀ x < 256,
    (((x ||| 1) % 256) &&& 254 = x &&& 254) ∧ (((x &&& 254) % 256) ||| 1 = x ||| 1) ∧
    (((x &&& 254) % 256) &&& 254 = x &&& 254) := by
  decide

theorem pinClr_pinSet (d : Nat) : pinClr (pinSet d) = pinClr d := by
  rw [pinClr_eq, pinClr_eq, pinSet_eq]
  exact (pin_bytes (d % 256) (Nat.mod_lt _ (by decide))).1

theorem pinSet_pinClr (d : Nat) : pinSet (pinClr d) = pinSet d := by
  rw [pinSet_eq, pinSet_eq, pinClr_eq]
  exact (pin_bytes (d % 256) (Nat.mod_lt _ (by decide))).2.1

theorem pinClr_pinClr (d : Nat) : pinClr (pinClr d) = pinClr d := by
  rw [pinClr_eq (pinClr d), pinClr_eq d]
  exact (pin_bytes (d % 256) (Nat.mod_lt _ (by decide))).2.2

theorem io_out (bus : Bus) (b : Nat) (s : State) : ( _io bus b s).2.out = s.out := by
  unfold _io ATOMIC_BLOCK
  by_cases h : b % 256 = 0 <;>
    simp [h, _delay_us, _setPinIn, _setPinOut, _getPinState, State.log]

theorem io_dir (bus : Bus) (b : Nat) (s : State) :
    ( _io bus b s).2.dir = pinClr (pinSet s.dir) := by
  unfold _io ATOMIC_BLOCK pinClr pinSet
  by_cases h : b % 256 = 0 <;>
    simp [h, _delay_us, _setPinIn, _setPinOut, _getPinState, State.log]

theorem reset_out (bus : Bus) (s : State) : ( _reset bus s).2.out = pinClr s.out := by
  simp [_reset, pinClr, ATOMIC_BLOCK, _delay_us, _setPinIn, _setPinOut, _setPinLow,
    _getPinState, State.log]

theorem reset_dir (bus : Bus) (s : State) :
    ( _reset bus s).2.dir = pinClr (pinSet s.dir) := by
  simp [_reset, pinClr, pinSet, ATOMIC_BLOCK, _delay_us, _setPinIn, _setPinOut, _setPinLow,
    _getPinState, State.log]

theorem PortStep.mono {s t : State} {e : Entry} (hi : t.ien = s.ien)
    (ho : t.out = s.out ∨ t.out = pinClr s.out)
    (hd : t.dir = s.dir ∨ t.dir = pinClr s.dir) (h : PortStep t e) : PortStep s e := by
  obtain ⟨h1, h2, h3, h4⟩ := h
  refine ⟨h1, ?_, ?_, ?_⟩
  · rw [← hi]; exact h2
  · rcases hd with hd | hd
    · rw [← hd]; exact h3
    · rw [hd, pinSet_pinClr, pinClr_pinClr] at h3
      rcases h3 with h | h | h
      · exact Or.inr (Or.inr h)
      · exact Or.inr (Or.inl h)
      · exact Or.inr (Or.inr h)
  · rcases ho with ho | ho
    · rw [← ho]; exact h4
    · rw [ho, pinClr_pinClr] at h4
      rcases h4 with h | h <;> exact Or.inr h

theorem Walk.same (s : State) : Walk s s :=
  ⟨rfl, Or.inl rfl, [], by simp, by simp, Or.inl ⟨rfl, rfl⟩⟩

theorem walk_of_eq (s t : State) (hi : t.ien = s.ien) (ho : t.out = s.out)
    (hd : t.dir = s.dir) (ht : t.trace = s.trace) : Walk s t :=
  ⟨hi, Or.inl ho, [], by simp [ht], by simp, Or.inl ⟨rfl, hd⟩⟩

theorem walk_set_resolution (x : State) (r : Nat) : Walk x { x with resolution := r } :=
  walk_of_eq _ _ rfl rfl rfl rfl

theorem walk_set_b0 (x : State) (v : Nat) : Walk x { x with temp_b0 := v } :=
  walk_of_eq _ _ rfl rfl rfl rfl

theorem walk_set_b1 (x : State) (v : Nat) : Walk x { x with temp_b1 := v } :=
  walk_of_eq _ _ rfl rfl rfl rfl

theorem Walk.dir {s t : State} (h : Walk s t) : t.dir = s.dir ∨ t.dir = pinClr s.dir := by
  obtain ⟨_, _, l, _, _, hd⟩ := h
  rcases hd with ⟨_, hd⟩ | ⟨_, hd⟩
  · exact Or.inl hd
  · exact Or.inr hd

theorem Walk.chain {s t u : State} (h1 : Walk s t) (h2 : Walk t u) : Walk s u := by
  have hdir := h1.dir
  obtain ⟨i1, o1, l1, e1, q1, d1⟩ := h1
  obtain ⟨i2, o2, l2, e2, q2, d2⟩ := h2
  refine ⟨i2.trans i1, ?_, l1 ++ l2, by rw [e2, e1, List.append_assoc], ?_, ?_⟩
  · rcases o2 with o2 | o2
    · rw [o2]; exact o1
    · rcases o1 with o1 | o1
      · rw [o2, o1]; exact Or.inr rfl
      · rw [o2, o1, pinClr_pinClr]; exact Or.inr rfl
  · intro e he
    rcases List.mem_append.mp he with h | h
    · exact q1 e h
    · exact PortStep.mono i1 o1 hdir (q2 e h)
  · rcases d2 with ⟨n2, d2⟩ | ⟨n2, d2⟩
    · subst n2
      rcases d1 with ⟨n1, d1⟩ | ⟨n1, d1⟩
      · left; exact ⟨by simp [n1], d2.trans d1⟩
      · right; exact ⟨by simp [n1], d2.trans d1⟩
    · right
      refine ⟨by simp [n2], ?_⟩
      rcases hdir with hd | hd
      · rw [d2, hd]
      · rw [d2, hd, pinClr_pinClr]

theorem Walk.length_le {s t : State} (h : Walk s t) : s.trace.length ≤ t.trace.length := by
  obtain ⟨_, _, l, e, _, _⟩ := h
  rw [e, List.length_append]
  omega

theorem Walk.added {s t : State} (h : Walk s t) :
    (∀ e ∈ newTrace s t, PortStep s e) ∧
    (newTrace s t ≠ [] → t.dir = pinClr s.dir) ∧ (Grew s t → t.dir = pinClr s.dir) := by
  obtain ⟨_, _, l, e, q, d⟩ := h
  rw [newTrace_of_append s t l e]
  refine ⟨q, ?_, ?_⟩
  · intro hne
    rcases d with ⟨hl, _⟩ | ⟨_, hd⟩
    · exact absurd hl hne
    · exact hd
  · intro hg
    rcases d with ⟨hl, _⟩ | ⟨_, hd⟩
    · unfold Grew at hg
      rw [e, hl] at hg
      simp at hg
    · exact hd

theorem Grew.then_walk {s t u : State} (h1 : Grew s t) (h2 : Walk t u) : Grew s u :=
  Nat.lt_of_lt_of_le h1 h2.length_le

theorem io_walk (bus : Bus) (b : Nat) (s : State) : Walk s ( _io bus b s).2 := by
  refine ⟨io_ien bus b s, Or.inl (io_out bus b s), ?_⟩
  have hc : ((((s.dir ||| OW_PIN_MASK) % 256) &&& bitNot16 OW_PIN_MASK) % 256) =
      pinClr s.dir := pinClr_pinSet s.dir
  by_cases h : b % 256 = 0
  · refine ⟨_, io_trace_zero bus b s h, ?_, Or.inr ⟨by simp, ?_⟩⟩
    · intro e he
      simp only [hc] at he
      simp at he
      rcases he with rfl | rfl | rfl | rfl | rfl <;>
        simp [PortStep, pinSet]
    · rw [io_dir, pinClr_pinSet]
  · refine ⟨_, io_trace_one bus b s h, ?_, Or.inr ⟨by simp, ?_⟩⟩
    · intro e he
      simp only [hc] at he
      simp at he
      rcases he with rfl | rfl | rfl | rfl | rfl | rfl | rfl <;>
        simp [PortStep, pinSet]
    · rw [io_dir, pinClr_pinSet]

theorem io_grew (bus : Bus) (b : Nat) (s : State) : Grew s ( _io bus b s).2 := by
  unfold Grew
  by_cases h : b % 256 = 0
  · rw [io_trace_zero bus b s h]; simp
  · rw [io_trace_one bus b s h]; simp

theorem reset_walk (bus : Bus) (s : State) : Walk s ( _reset bus s).2 := by
  refine ⟨reset_ien bus s, Or.inr (reset_out bus s), ?_⟩
  have hc : ((((s.dir ||| OW_PIN_MASK) % 256) &&& bitNot16 OW_PIN_MASK) % 256) =
      pinClr s.dir := pinClr_pinSet s.dir
  refine ⟨_, reset_trace bus s, ?_, Or.inr ⟨by simp, ?_⟩⟩
  · intro e he
    simp only [hc] at he
    simp at he
    rcases he with rfl | rfl | rfl | rfl | rfl | rfl | rfl | rfl <;>
      simp [PortStep, pinSet, pinClr]
  · rw [reset_dir, pinClr_pinSet]

theorem reset_grew (bus : Bus) (s : State) : Grew s ( _reset bus s).2 := by
  unfold Grew
  rw [reset_trace bus s]
  simp

theorem write_loop_walk (bus : Bus) (n : Nat) :
    ∀ (byte : Nat) (s : State), Walk s ( _write_loop bus n byte s) := by
  induction n with
  | zero => intro byte s; exact Walk.same s
  | succ n ih =>
    intro byte s
    exact (io_walk bus (byte &&& 1) s).chain (ih (byte >>> 1) _)

theorem write_walk (bus : Bus) (byte : Nat) (s : State) : Walk s ( _write bus byte s) :=
  write_loop_walk bus 8 _ s

theorem write_grew (bus : Bus) (byte : Nat) (s : State) : Grew s ( _write bus byte s) :=
  (io_grew bus _ s).then_walk (write_loop_walk bus 7 _ _)

theorem read_loop_walk (bus : Bus) (n : Nat) :
    ∀ (i byte : Nat) (s : State), Walk s ( _read_loop bus n i byte s).2 := by
  induction n with
  | zero => intro i byte s; exact Walk.same s
  | succ n ih =>
    intro i byte s
    exact (io_walk bus 1 s).chain (ih _ _ _)

theorem read_walk (bus : Bus) (s : State) : Walk s ( _read bus s).2 :=
  read_loop_walk bus 8 0 0 s

theorem read_grew (bus : Bus) (s : State) : Grew s ( _read bus s).2 :=
  (io_grew bus 1 s).then_walk (read_loop_walk bus 7 _ _ _)

theorem skipRom_walk (bus : Bus) (s : State) : Walk s ( _skipRom bus s).2 := by
  by_cases h : ( _reset bus s).1 = 0
  · rw [skipRom_ok bus s h]
    exact (reset_walk bus s).chain (write_walk bus 0xCC _)
  · rw [skipRom_fail bus s h]
    exact reset_walk bus s

theorem skipRom_grew (bus : Bus) (s : State) : Grew s ( _skipRom bus s).2 := by
  by_cases h : ( _reset bus s).1 = 0
  · rw [skipRom_ok bus s h]
    exact (reset_grew bus s).then_walk (write_walk bus 0xCC _)
  · rw [skipRom_fail bus s h]
    exact reset_grew bus s

theorem setResolution_invalid (bus : Bus) (r : Nat) (s : State) (hv : ¬ (9 ≤ r ∧ r ≤ 12)) :
    DS18B20_SetResolution bus r s = (1, s) := by
  unfold DS18B20_SetResolution
  by_cases h1 : r < 9
  · simp [h1]
  · have h2 : r > 12 := by omega
    simp [h1, h2]

theorem setResolution_walk (bus : Bus) (r : Nat) (s : State) :
    Walk s (DS18B20_SetResolution bus r s).2 := by
  by_cases hv : 9 ≤ r ∧ r ≤ 12
  · by_cases h : ( _reset bus s).1 = 0
    · rw [setResolution_ok bus r s hv.1 hv.2 h]
      have h0 := ((reset_walk bus s).chain (write_walk bus 0xCC _)).chain
        (walk_set_resolution _ r)
      have h1 := h0.chain (write_walk bus 0x4E _)
      have h2 := h1.chain (write_walk bus 0 _)
      have h3 := h2.chain (write_walk bus 0 _)
      exact h3.chain (write_walk bus ((r - 9) <<< 5) _)
    · rw [setResolution_fail bus r s hv.1 hv.2 h]
      exact reset_walk bus s
  · rw [setResolution_invalid bus r s hv]
    exact Walk.same s

theorem setResolution_grew (bus : Bus) (r : Nat) (s : State) (hv : 9 ≤ r ∧ r ≤ 12) :
    Grew s (DS18B20_SetResolution bus r s).2 := by
  by_cases h : ( _reset bus s).1 = 0
  · rw [setResolution_ok bus r s hv.1 hv.2 h]
    have h0 := ((reset_grew bus s).then_walk (write_walk bus 0xCC _)).then_walk
      (walk_set_resolution _ r)
    have h1 := h0.then_walk (write_walk bus 0x4E _)
    have h2 := h1.then_walk (write_walk bus 0 _)
    have h3 := h2.then_walk (write_walk bus 0 _)
    exact h3.then_walk (write_walk bus ((r - 9) <<< 5) _)
  · rw [setResolution_fail bus r s hv.1 hv.2 h]
    exact reset_grew bus s

theorem init_pins_walk (s : State) : Walk s ( _setPinLow ( _setPinIn s)) := by
  refine ⟨rfl, Or.inr rfl, [Entry.mk Op.setPinIn s.ien (pinClr s.dir) s.out,
    Entry.mk Op.setPinLow s.ien (pinClr s.dir) (pinClr s.out)], ?_, ?_, Or.inr ⟨by simp, rfl⟩⟩
  · simp [_setPinLow, _setPinIn, State.log, pinClr]
  · intro e he
    simp at he
    rcases he with rfl | rfl <;> simp [PortStep]

theorem init_pins_grew (s : State) : Grew s ( _setPinLow ( _setPinIn s)) := by
  simp [Grew, _setPinLow, _setPinIn, State.log]

theorem init_walk (bus : Bus) (r : Nat) (s : State) : Walk s (DS18B20_Init bus r s).2 :=
  (init_pins_walk s).chain (setResolution_walk bus r _)

theorem init_grew (bus : Bus) (r : Nat) (s : State) : Grew s (DS18B20_Init bus r s).2 :=
  (init_pins_grew s).then_walk (setResolution_walk bus r _)

theorem convertTemp_walk (bus : Bus) (s : State) : Walk s (DS18B20_ConvertTemp bus s).2 := by
  by_cases h : ( _reset bus s).1 = 0
  · rw [convertTemp_ok bus s h]
    exact ((reset_walk bus s).chain (write_walk bus 0xCC _)).chain (write_walk bus 0x44 _)
  · rw [convertTemp_fail bus s h]
    exact reset_walk bus s

theorem convertTemp_grew (bus : Bus) (s : State) : Grew s (DS18B20_ConvertTemp bus s).2 := by
  by_cases h : ( _reset bus s).1 = 0
  · rw [convertTemp_ok bus s h]
    exact ((reset_grew bus s).then_walk (write_walk bus 0xCC _)).then_walk
      (write_walk bus 0x44 _)
  · rw [convertTemp_fail bus s h]
    exact reset_grew bus s

theorem readTemp_walk (bus : Bus) (s : State) : Walk s (DS18B20_ReadTemp bus s).2 := by
  by_cases h : ( _reset bus s).1 = 0
  · rw [readTemp_ok bus s h]
    have h1 := ((reset_walk bus s).chain (write_walk bus 0xCC _)).chain
      (write_walk bus 0xBE _)
    have h2 := (h1.chain (read_walk bus _)).chain (walk_set_b0 _
      ( _read bus ( _write bus 0xBE ( _write bus 0xCC ( _reset bus s).2))).1)
    have h3 := h2.chain (read_walk bus _)
    exact h3.chain (walk_set_b1 _ _)
  · rw [readTemp_fail bus s h]
    exact reset_walk bus s

theorem readTemp_grew (bus : Bus) (s : State) : Grew s (DS18B20_ReadTemp bus s).2 := by
  have h0 : Grew s ( _reset bus s).2 := reset_grew bus s
  by_cases h : ( _reset bus s).1 = 0
  · rw [readTemp_ok bus s h]
    have h1 := (h0.then_walk (write_walk bus 0xCC _)).then_walk (write_walk bus 0xBE _)
    have h2 := (h1.then_walk (read_walk bus _)).then_walk (walk_set_b0 _
      ( _read bus ( _write bus 0xBE ( _write bus 0xCC ( _reset bus s).2))).1)
    have h3 := h2.then_walk (read_walk bus _)
    exact h3.then_walk (walk_set_b1 _ _)
  · rw [readTemp_fail bus s h]
    exact h0

/-- Every operation is a walk. -/
theorem after_walk (bus : Bus) (op : Operation) (s : State) :
    Walk s (Operation.after bus op s) := by
  cases op with
  | Init r => exact init_walk bus r s
  | SetResolution r => exact setResolution_walk bus r s
  | ConvertTemp => exact convertTemp_walk bus s
  | IsTempReady => exact io_walk bus 1 s
  | ReadTemp => exact readTemp_walk bus s
  | GetTemp => exact Walk.same s
  | GetRawTemp => exact Walk.same s
  | reset => exact reset_walk bus s
  | io b => exact io_walk bus b s
  | write b => exact write_walk bus b s
  | read => exact read_walk bus s
  | skipRom => exact skipRom_walk bus s

/-- Every operation that touches the pin adds to the pin history. -/
theorem after_grew (bus : Bus) (op : Operation) (s : State) (h : Operation.touchesPin op) :
    Grew s (Operation.after bus op s) := by
  cases op with
  | Init r => exact init_grew bus r s
  | SetResolution r => exact setResolution_grew bus r s h
  | ConvertTemp => exact convertTemp_grew bus s
  | IsTempReady => exact io_grew bus 1 s
  | ReadTemp => exact readTemp_grew bus s
  | GetTemp => exact absurd h (by simp [Operation.touchesPin])
  | GetRawTemp => exact absurd h (by simp [Operation.touchesPin])
  | reset => exact reset_grew bus s
  | io b => exact io_grew bus b s
  | write b => exact write_grew bus b s
  | read => exact read_grew bus s
  | skipRom => exact skipRom_grew bus s

theorem pinClr_mask (x : Nat) : pinClr x &&& OW_PIN_MASK = 0 :=
  and_bitNot_mask x

set_option maxRecDepth 1000000 in
theorem pin_frame : ∀ x < 256, pinSet x < 256 ∧ pinClr x < 256 ∧
    ∀ i < 8, i ≠ OW_PIN →
      (pinSet x).testBit i = x.testBit i ∧ (pinClr x).testBit i = x.testBit i := by
  decide

/-! ## The claims -/

/-- C1: for every resolution outside {9, 10, 11, 12} and every prior state,
`DS18B20_SetResolution` returns 1 and hands back the very state it was given: the stored
resolution and the stored raw temperature are unchanged, nothing is added to the pin
history (no pin operation, no delay, no sample, hence no reset) and no time slot is
issued. -/
theorem C1_setResolution_rejects_invalid (bus : Bus) (resolution : Nat) (s : State)
    (h : resolution < 9 ∨ 12 < resolution) :
    (DS18B20_SetResolution bus resolution s).1 = 1 ∧
    (DS18B20_SetResolution bus resolution s).2.resolution = s.resolution ∧
    (DS18B20_GetRawTemp (DS18B20_SetResolution bus resolution s).2).1
      = (DS18B20_GetRawTemp s).1 ∧
    newTrace s (DS18B20_SetResolution bus resolution s).2 = [] ∧
    newSlots s (DS18B20_SetResolution bus resolution s).2 = [] ∧
    (DS18B20_SetResolution bus resolution s).2 = s := by
  have e : DS18B20_SetResolution bus resolution s = (1, s) := by
    unfold DS18B20_SetResolution
    rcases h with h | h
    · simp [h]
    · have h9 : ¬ resolution < 9 := by omega
      simp [h9, h]
  rw [e]
  simp [newTrace, newSlots]

/-- C1, evaluated: resolution 13 offered to a driver that holds resolution 12. -/
theorem C1_setResolution_rejects_invalid_witness :
    ((13 : Nat) < 9 ∨ 12 < 13) ∧
    (DS18B20_SetResolution busPresent 13 s1).1 = 1 ∧
    (DS18B20_SetResolution busPresent 13 s1).2.resolution = 12 ∧
    (DS18B20_SetResolution busPresent 13 s1).2 = s1 :=
  ⟨by decide,
    (C1_setResolution_rejects_invalid busPresent 13 s1 (by decide)).1,
    (C1_setResolution_rejects_invalid busPresent 13 s1 (by decide)).2.1,
    (C1_setResolution_rejects_invalid busPresent 13 s1 (by decide)).2.2.2.2.2⟩

/-- C2: for every resolution in {9, 10, 11, 12}, on a bus where the reset succeeds,
`DS18B20_SetResolution` returns 0 and the time slots it issues are exactly the 40 slots of
the bytes 0xCC, 0x4E, 0x00, 0x00 and the configuration byte, each least significant bit
first; the configuration byte is `(resolution - 9) << 5`, that is 0x00, 0x20, 0x40, 0x60
for 9, 10, 11, 12. -/
theorem C2_setResolution_bytes (bus : Bus) (resolution : Nat) (s : State)
    (h9 : 9 ≤ resolution) (h12 : resolution ≤ 12) (hreset : ( _reset bus s).1 = 0) :
    (DS18B20_SetResolution bus resolution s).1 = 0 ∧
    newSlots s (DS18B20_SetResolution bus resolution s).2 =
      byteSlots 0xCC ++ byteSlots 0x4E ++ byteSlots 0x00 ++ byteSlots 0x00 ++
        byteSlots ((resolution - 9) <<< 5) ∧
    (resolution - 9) <<< 5 =
      (if resolution = 9 then 0x00 else if resolution = 10 then 0x20
        else if resolution = 11 then 0x40 else 0x60) := by
  have hc : ((resolution - 9) <<< 5) % 256 = (resolution - 9) <<< 5 := by
    have : resolution = 9 ∨ resolution = 10 ∨ resolution = 11 ∨ resolution = 12 := by omega
    rcases this with h | h | h | h <;> subst h <;> decide
  rw [setResolution_ok bus resolution s h9 h12 hreset]
  refine ⟨rfl, ?_, ?_⟩
  · apply newSlots_of_append
    simp only [write_slots, reset_slots, hc, List.append_assoc]
  · have : resolution = 9 ∨ resolution = 10 ∨ resolution = 11 ∨ resolution = 12 := by omega
    rcases this with h | h | h | h <;> subst h <;> decide

/-- C2, evaluated: resolution 10 on a bus with a responding device. -/
theorem C2_setResolution_bytes_witness :
    (9 ≤ 10) ∧ (10 ≤ 12) ∧ ( _reset busPresent s0).1 = 0 ∧
    (DS18B20_SetResolution busPresent 10 s0).1 = 0 ∧
    newSlots s0 (DS18B20_SetResolution busPresent 10 s0).2 =
      byteSlots 0xCC ++ byteSlots 0x4E ++ byteSlots 0x00 ++ byteSlots 0x00 ++
        byteSlots 0x20 :=
  ⟨by decide, by decide, by decide,
    (C2_setResolution_bytes busPresent 10 s0 (by decide) (by decide) (by decide)).1,
    (C2_setResolution_bytes busPresent 10 s0 (by decide) (by decide) (by decide)).2.1⟩

/-- C3: `_reset` takes exactly two samples of the line, the first 64 us after releasing
it and the second after the remaining 416 us of the window, and returns 0 if and only if
the first sample is low (presence pulse) and the second is high (line back to idle); for
every other combination of the two samples it returns a non-zero value, in particular
when the first sample is high (no presence pulse) and when the second sample is low (line
still held). -/
theorem C3_reset_success_iff (bus : Bus) (s : State) :
    ops (newTrace s ( _reset bus s).2) =
      [Op.setPinLow, Op.setPinOut, Op.delay 480, Op.setPinIn, Op.delay 64,
        Op.sample (pinLevel bus s.reads), Op.delay 416,
        Op.sample (pinLevel bus (s.reads + 1))] ∧
    (( _reset bus s).1 = 0 ↔
      (pinLevel bus s.reads = 0 ∧ pinLevel bus (s.reads + 1) ≠ 0)) ∧
    (pinLevel bus s.reads ≠ 0 → ( _reset bus s).1 ≠ 0) ∧
    (pinLevel bus (s.reads + 1) = 0 → ( _reset bus s).1 ≠ 0) := by
  refine ⟨?_, ?_, ?_, ?_⟩
  · simp [newTrace, ops, _reset, ATOMIC_BLOCK, _delay_us, _setPinIn, _setPinOut, _setPinLow,
      _getPinState, State.log]
  · rw [reset_result]
    by_cases h2 : pinLevel bus (s.reads + 1) = 0 <;> simp [h2]
  · intro h1
    rw [reset_result]
    by_cases h2 : pinLevel bus (s.reads + 1) = 0 <;> simp [h2, h1]
  · intro h2
    rw [reset_result]
    simp [h2]

/-- C3, evaluated on three buses: a presence pulse followed by an idle line succeeds, a
line that stays high fails, a line that stays low fails. -/
theorem C3_reset_success_iff_witness :
    ( _reset busPresent s0).1 = 0 ∧ ( _reset busIdle s0).1 ≠ 0 ∧
    ( _reset (fun _ => 0) s0).1 ≠ 0 :=
  ⟨(C3_reset_success_iff busPresent s0).2.1.mpr (by decide),
    (C3_reset_success_iff busIdle s0).2.2.1 (by decide),
    (C3_reset_success_iff (fun _ => 0) s0).2.2.2 (by decide)⟩

/-- C4: whenever the reset fails, each of `DS18B20_SetResolution` (with a resolution in
{9, 10, 11, 12}), `DS18B20_ConvertTemp` and `DS18B20_ReadTemp` returns 1, issues no time
slot at all (so no command byte reaches the bus), does nothing beyond the failed reset,
and leaves the stored resolution and the stored raw temperature bytes unchanged. -/
theorem C4_bus_fault (bus : Bus) (resolution : Nat) (s : State)
    (h9 : 9 ≤ resolution) (h12 : resolution ≤ 12) (hreset : ( _reset bus s).1 ≠ 0) :
    ((DS18B20_SetResolution bus resolution s).1 = 1 ∧
      newSlots s (DS18B20_SetResolution bus resolution s).2 = [] ∧
      sensor (DS18B20_SetResolution bus resolution s).2 = sensor s ∧
      (DS18B20_SetResolution bus resolution s).2 = ( _reset bus s).2) ∧
    ((DS18B20_ConvertTemp bus s).1 = 1 ∧
      newSlots s (DS18B20_ConvertTemp bus s).2 = [] ∧
      sensor (DS18B20_ConvertTemp bus s).2 = sensor s ∧
      (DS18B20_ConvertTemp bus s).2 = ( _reset bus s).2) ∧
    ((DS18B20_ReadTemp bus s).1 = 1 ∧
      newSlots s (DS18B20_ReadTemp bus s).2 = [] ∧
      sensor (DS18B20_ReadTemp bus s).2 = sensor s ∧
      (DS18B20_ReadTemp bus s).2 = ( _reset bus s).2) := by
  have hs : newSlots s ( _reset bus s).2 = [] :=
    newSlots_of_append s _ [] (by simp [reset_slots])
  rw [setResolution_fail bus resolution s h9 h12 hreset, convertTemp_fail bus s hreset,
    readTemp_fail bus s hreset]
  exact ⟨⟨rfl, hs, reset_sensor bus s, rfl⟩, ⟨rfl, hs, reset_sensor bus s, rfl⟩,
    ⟨rfl, hs, reset_sensor bus s, rfl⟩⟩

/-- C4, evaluated: no device on the bus, resolution 12 and raw register 0x0190 stored. -/
theorem C4_bus_fault_witness :
    (9 ≤ 12) ∧ (12 ≤ 12) ∧ ( _reset busIdle s1).1 ≠ 0 ∧
    (DS18B20_SetResolution busIdle 12 s1).1 = 1 ∧
    (DS18B20_ReadTemp busIdle s1).1 = 1 ∧
    newSlots s1 (DS18B20_ReadTemp busIdle s1).2 = [] ∧
    sensor (DS18B20_ReadTemp busIdle s1).2 = (0x90, 0x01, 12) :=
  ⟨by decide, by decide, by decide,
    (C4_bus_fault busIdle 12 s1 (by decide) (by decide) (by decide)).1.1,
    (C4_bus_fault busIdle 12 s1 (by decide) (by decide) (by decide)).2.2.1,
    (C4_bus_fault busIdle 12 s1 (by decide) (by decide) (by decide)).2.2.2.1,
    (C4_bus_fault busIdle 12 s1 (by decide) (by decide) (by decide)).2.2.2.2.1⟩

/-- C5: on a bus where the reset succeeds, `DS18B20_ReadTemp` returns 0 and issues
exactly the slots of the bytes 0xCC and 0xBE followed by 16 read slots (request bit 1).
The 16 read slots take the 13th to 28th read of the line counted from entry (the reset
samples twice, the one-bits of the two command bytes sample ten times).  When the device
answers them with the bits of `lo` and then of `hi`, least significant first, the raw
register afterwards holds `lo` in its first byte and `hi` in its second,
`DS18B20_GetRawTemp` returns `lo + 256 * hi`, and the stored resolution is unchanged. -/
theorem C5_readTemp_stores_raw (bus : Bus) (s : State) (lo hi : Nat)
    (hlo : lo < 256) (hhi : hi < 256) (hreset : ( _reset bus s).1 = 0)
    (hlo_bits : ∀ k < 8, pinLevel bus (s.reads + 12 + k) = (lo >>> k) &&& 1)
    (hhi_bits : ∀ k < 8, pinLevel bus (s.reads + 20 + k) = (hi >>> k) &&& 1) :
    (DS18B20_ReadTemp bus s).1 = 0 ∧
    newSlots s (DS18B20_ReadTemp bus s).2 =
      byteSlots 0xCC ++ byteSlots 0xBE ++ List.replicate 16 1 ∧
    ( _write bus 0xBE ( _skipRom bus s).2).reads = s.reads + 12 ∧
    (DS18B20_ReadTemp bus s).2.reads = s.reads + 28 ∧
    (DS18B20_ReadTemp bus s).2.temp_b0 = lo ∧
    (DS18B20_ReadTemp bus s).2.temp_b1 = hi ∧
    (DS18B20_GetRawTemp (DS18B20_ReadTemp bus s).2).1 = lo + 256 * hi ∧
    (DS18B20_ReadTemp bus s).2.resolution = s.resolution := by
  have hA := readTemp_command_reads bus s
  have hb0 : ( _read bus ( _write bus 0xBE ( _write bus 0xCC ( _reset bus s).2))).1 = lo := by
    apply read_result_of_bits _ _ _ hlo
    intro k hk
    rw [hA]
    exact hlo_bits k hk
  have hb1 : ( _read bus { ( _read bus ( _write bus 0xBE ( _write bus 0xCC ( _reset bus s).2))).2
      with temp_b0 := lo }).1 = hi := by
    apply read_result_of_bits _ _ _ hhi
    intro k hk
    have : ( _read bus ( _write bus 0xBE ( _write bus 0xCC ( _reset bus s).2))).2.reads
        = s.reads + 20 := by rw [read_reads, hA]
    simp only [this]
    exact hhi_bits k hk
  rw [readTemp_ok bus s hreset, hb0, hb1, skipRom_ok bus s hreset]
  refine ⟨rfl, ?_, hA, ?_, ?_, rfl, ?_, ?_⟩
  · apply newSlots_of_append
    simp only [read_slots, write_slots, reset_slots, List.append_assoc]
    rfl
  · simp only [read_reads, hA]
  · have h := read_sensor bus { ( _read bus ( _write bus 0xBE
      ( _write bus 0xCC ( _reset bus s).2))).2 with temp_b0 := lo }
    exact congrArg (fun t => t.1) h
  · rw [rawTemp_eq]
    have h := read_sensor bus { ( _read bus ( _write bus 0xBE
      ( _write bus 0xCC ( _reset bus s).2))).2 with temp_b0 := lo }
    have h0 := congrArg (fun t => t.1) h
    simp only [sensor] at h0
    simp only [h0]
    omega
  · have h := sensor_resolution _ _ (read_sensor bus { ( _read bus ( _write bus 0xBE
      ( _write bus 0xCC ( _reset bus s).2))).2 with temp_b0 := lo })
    have h2 := sensor_resolution _ _ (read_sensor bus ( _write bus 0xBE
      ( _write bus 0xCC ( _reset bus s).2)))
    have h3 := sensor_resolution _ _ (write_sensor bus 0xBE ( _write bus 0xCC ( _reset bus s).2))
    have h4 := sensor_resolution _ _ (write_sensor bus 0xCC ( _reset bus s).2)
    have h5 := sensor_resolution _ _ (reset_sensor bus s)
    simp only [] at h ⊢
    rw [h, h2, h3, h4, h5]

/-- C5, evaluated: the device answers 0x5E then 0xFF; the raw register reads 0xFF5E. -/
theorem C5_readTemp_stores_raw_witness :
    (0x5E < 256) ∧ (0xFF < 256) ∧ ( _reset (busTemp 0x5E 0xFF) s0).1 = 0 ∧
    (∀ k < 8, pinLevel (busTemp 0x5E 0xFF) (s0.reads + 12 + k) = (0x5E >>> k) &&& 1) ∧
    (∀ k < 8, pinLevel (busTemp 0x5E 0xFF) (s0.reads + 20 + k) = (0xFF >>> k) &&& 1) ∧
    (DS18B20_ReadTemp (busTemp 0x5E 0xFF) s0).1 = 0 ∧
    (DS18B20_GetRawTemp (DS18B20_ReadTemp (busTemp 0x5E 0xFF) s0).2).1 = 0xFF5E :=
  ⟨by decide, by decide, by decide, by decide, by decide,
    (C5_readTemp_stores_raw (busTemp 0x5E 0xFF) s0 0x5E 0xFF (by decide) (by decide)
      (by decide) (by decide) (by decide)).1,
    (C5_readTemp_stores_raw (busTemp 0x5E 0xFF) s0 0x5E 0xFF (by decide) (by decide)
      (by decide) (by decide) (by decide)).2.2.2.2.2.2.1⟩

/-- C6: the two examples of the raw-to-physical conversion.  With the raw register equal
to 0x0190 (400) `DS18B20_GetTemp` returns 25.  With the raw register equal to 0xFF5E (the
register reads as -162, so the sign is handled) it returns -10, which is not the -10.125
the claim gives: the sixteenths are lost. -/
theorem C6_getTemp_examples :
    (DS18B20_GetRawTemp s1).1 = 0x0190 ∧ _temp_w s1 = 400 ∧
    (DS18B20_GetTemp s1).1 = 25 ∧
    (DS18B20_GetRawTemp sNeg).1 = 0xFF5E ∧ _temp_w sNeg = -162 ∧
    (DS18B20_GetTemp sNeg).1 = -10 ∧
    (DS18B20_GetTemp sNeg).1 ≠ -10.125 := by
  have h1 : (DS18B20_GetTemp s1).1 = 25 := by
    show ((Int.tdiv ( _temp_w s1) 16 : Int) : ℚ) = 25
    rw [temp_w_s1]
    have : Int.tdiv 400 16 = 25 := by decide
    rw [this]
    norm_num
  have h2 : (DS18B20_GetTemp sNeg).1 = -10 := by
    show ((Int.tdiv ( _temp_w sNeg) 16 : Int) : ℚ) = -10
    rw [temp_w_sNeg]
    have : Int.tdiv (-162) 16 = -10 := by decide
    rw [this]
    norm_num
  refine ⟨by decide, temp_w_s1, h1, by decide, temp_w_sNeg, h2, ?_⟩
  rw [h2]
  norm_num

/-- C7: for every state, with `w` the raw register read as a signed 16-bit integer
(so `-32768 ≤ w ≤ 32767`), `DS18B20_GetTemp` returns a whole number `q` in
`[-2048, 2047]` which is the quotient of `w` by 16 truncated toward zero: for `w ≥ 0` it
is the floor of `w / 16`, for `w < 0` it is minus the floor of `-w / 16`, so the
magnitude is rounded down and the remainder `w - 16 q` (fewer than 16 sixteenths, of the
sign of `w`) is discarded; the state is not changed.  For -162 the result is -10, not
-11. -/
theorem C7_getTemp_truncates (s : State) :
    (-32768 ≤ _temp_w s ∧ _temp_w s ≤ 32767) ∧
    (DS18B20_GetTemp s).2 = s ∧
    (∃ q : Int, (DS18B20_GetTemp s).1 = (q : ℚ) ∧
      q = Int.tdiv ( _temp_w s) 16 ∧
      q = (if 0 ≤ _temp_w s then _temp_w s / 16 else -((- _temp_w s) / 16)) ∧
      -2048 ≤ q ∧ q ≤ 2047 ∧
      (0 ≤ _temp_w s → 0 ≤ q ∧ 16 * q ≤ _temp_w s ∧ _temp_w s < 16 * q + 16) ∧
      (_temp_w s < 0 → q ≤ 0 ∧ 16 * q - 16 < _temp_w s ∧ _temp_w s ≤ 16 * q)) ∧
    (DS18B20_GetTemp sNeg).1 = -10 ∧ (DS18B20_GetTemp sNeg).1 ≠ -11 := by
  have hr := temp_w_range s
  have hneg : (DS18B20_GetTemp sNeg).1 = -10 := by
    show ((Int.tdiv ( _temp_w sNeg) 16 : Int) : ℚ) = -10
    rw [temp_w_sNeg]
    have : Int.tdiv (-162) 16 = -10 := by decide
    rw [this]
    norm_num
  refine ⟨hr, rfl, ⟨Int.tdiv ( _temp_w s) 16, rfl, rfl, ?_⟩, hneg, by rw [hneg]; norm_num⟩
  by_cases h : 0 ≤ _temp_w s
  · have hq := tdiv16_of_nonneg _ h
    refine ⟨?_, ?_, ?_, ?_, ?_⟩
    · rw [hq, if_pos h]
    · omega
    · omega
    · intro _; omega
    · intro _; omega
  · have h' : _temp_w s < 0 := by omega
    have hq := tdiv16_of_neg _ h'
    refine ⟨?_, ?_, ?_, ?_, ?_⟩
    · rw [hq, if_neg h]
    · omega
    · omega
    · intro _; omega
    · intro _; omega

/-- C8: round trip on a loopback bus.  For every byte `B` (all 256 values), written by
`_write` from any state on any bus: if the levels that `_read` samples in its eight read
slots are, in order, the request bits of the eight slots `_write B` issued, then `_read`
returns `B`.  The eight samples of `_read` are the reads number `reads`, ..., `reads + 7`
of the line. -/
theorem C8_read_inverts_write (busW busR : Bus) (sW sR : State) (B : Nat) (hB : B < 256)
    (hloop : samples (newTrace sR ( _read busR sR).2) = newSlots sW ( _write busW B sW)) :
    ( _read busR sR).1 = B ∧
    newSlots sW ( _write busW B sW) = byteSlots B ∧
    samples (newTrace sR ( _read busR sR).2) =
      (List.range 8).map (fun k => pinLevel busR (sR.reads + k)) := by
  have hw : newSlots sW ( _write busW B sW) = byteSlots B := by
    apply newSlots_of_append
    rw [write_slots, Nat.mod_eq_of_lt hB]
  have hr := (read_adds busR sR).newTrace.1
  refine ⟨?_, hw, hr⟩
  apply read_result_of_bits busR sR B hB
  rw [hr, hw] at hloop
  intro k hk
  exact List.map_inj_left.mp hloop k (List.mem_range.mpr hk)

/-- C8, evaluated: 0xA5 is written, the fixture replays the captured bits, `_read` gives
0xA5 back. -/
theorem C8_read_inverts_write_witness :
    (0xA5 < 256) ∧
    samples (newTrace ( _write busIdle 0xA5 s0)
      ( _read (busLoopback (newSlots s0 ( _write busIdle 0xA5 s0)) 4)
        ( _write busIdle 0xA5 s0)).2) = newSlots s0 ( _write busIdle 0xA5 s0) ∧
    ( _read (busLoopback (newSlots s0 ( _write busIdle 0xA5 s0)) 4)
      ( _write busIdle 0xA5 s0)).1 = 0xA5 :=
  ⟨by decide, by decide,
    (C8_read_inverts_write busIdle (busLoopback (newSlots s0 ( _write busIdle 0xA5 s0)) 4)
      s0 ( _write busIdle 0xA5 s0) 0xA5 (by decide) (by decide)).1⟩

/-- C9: the stored resolution under every public operation, for every argument `r`, every
bus and every state.  `DS18B20_SetResolution` and `DS18B20_Init` keep the predicate
"the stored resolution is one of 9, 10, 11, 12", change the stored resolution only when
they return 0, and after returning 0 it equals `r` (which is then one of the four); when
they return anything else it is what it was.  `DS18B20_ConvertTemp`,
`DS18B20_IsTempReady`, `DS18B20_ReadTemp`, `DS18B20_GetTemp` and `DS18B20_GetRawTemp`
never change it. -/
theorem C9_resolution_invariant (bus : Bus) (r : Nat) (s : State) :
    ((resolutionValid s → resolutionValid (DS18B20_SetResolution bus r s).2) ∧
      ((DS18B20_SetResolution bus r s).2.resolution ≠ s.resolution →
        (DS18B20_SetResolution bus r s).1 = 0) ∧
      ((DS18B20_SetResolution bus r s).1 = 0 →
        (DS18B20_SetResolution bus r s).2.resolution = r ∧ 9 ≤ r ∧ r ≤ 12) ∧
      ((DS18B20_SetResolution bus r s).1 ≠ 0 →
        (DS18B20_SetResolution bus r s).2.resolution = s.resolution)) ∧
    ((resolutionValid s → resolutionValid (DS18B20_Init bus r s).2) ∧
      ((DS18B20_Init bus r s).2.resolution ≠ s.resolution →
        (DS18B20_Init bus r s).1 = 0) ∧
      ((DS18B20_Init bus r s).1 = 0 →
        (DS18B20_Init bus r s).2.resolution = r ∧ 9 ≤ r ∧ r ≤ 12) ∧
      ((DS18B20_Init bus r s).1 ≠ 0 →
        (DS18B20_Init bus r s).2.resolution = s.resolution)) ∧
    (DS18B20_ConvertTemp bus s).2.resolution = s.resolution ∧
    (DS18B20_IsTempReady bus s).2.resolution = s.resolution ∧
    (DS18B20_ReadTemp bus s).2.resolution = s.resolution ∧
    (DS18B20_GetTemp s).2.resolution = s.resolution ∧
    (DS18B20_GetRawTemp s).2.resolution = s.resolution := by
  have key : ∀ t : State, t.resolution = s.resolution →
      ((resolutionValid s → resolutionValid (DS18B20_SetResolution bus r t).2) ∧
      ((DS18B20_SetResolution bus r t).2.resolution ≠ s.resolution →
        (DS18B20_SetResolution bus r t).1 = 0) ∧
      ((DS18B20_SetResolution bus r t).1 = 0 →
        (DS18B20_SetResolution bus r t).2.resolution = r ∧ 9 ≤ r ∧ r ≤ 12) ∧
      ((DS18B20_SetResolution bus r t).1 ≠ 0 →
        (DS18B20_SetResolution bus r t).2.resolution = s.resolution)) := by
    intro t ht
    rcases setResolution_effect bus r t with ⟨h1, h2⟩ | ⟨h1, hv, h2⟩
    · refine ⟨?_, ?_, ?_, ?_⟩
      · intro hs
        unfold resolutionValid at hs ⊢
        rw [h2, ht]
        exact hs
      · intro hne
        exact absurd (h2.trans ht) hne
      · intro h0
        rw [h1] at h0
        exact absurd h0 (by decide)
      · intro _
        exact h2.trans ht
    · refine ⟨?_, ?_, ?_, ?_⟩
      · intro _
        unfold resolutionValid
        rw [h2]
        omega
      · intro _
        exact h1
      · intro _
        exact ⟨h2, hv⟩
      · intro hne
        exact absurd h1 hne
  refine ⟨key s rfl, key ( _setPinLow ( _setPinIn s)) rfl, ?_, ?_, ?_, rfl, rfl⟩
  · by_cases h : ( _reset bus s).1 = 0
    · rw [convertTemp_ok bus s h]
      have h1 := sensor_resolution _ _ (write_sensor bus 0x44 ( _write bus 0xCC ( _reset bus s).2))
      have h2 := sensor_resolution _ _ (write_sensor bus 0xCC ( _reset bus s).2)
      have h3 := sensor_resolution _ _ (reset_sensor bus s)
      simp only [] at h1 ⊢
      rw [h1, h2, h3]
    · rw [convertTemp_fail bus s h]
      exact sensor_resolution _ _ (reset_sensor bus s)
  · exact sensor_resolution _ _ (io_sensor bus 1 s)
  · by_cases h : ( _reset bus s).1 = 0
    · rw [readTemp_ok bus s h]
      have h0 := sensor_resolution _ _ (read_sensor bus { ( _read bus ( _write bus 0xBE
        ( _write bus 0xCC ( _reset bus s).2))).2 with temp_b0 := ( _read bus ( _write bus 0xBE
        ( _write bus 0xCC ( _reset bus s).2))).1 })
      have h1 := sensor_resolution _ _ (read_sensor bus ( _write bus 0xBE
        ( _write bus 0xCC ( _reset bus s).2)))
      have h2 := sensor_resolution _ _ (write_sensor bus 0xBE ( _write bus 0xCC ( _reset bus s).2))
      have h3 := sensor_resolution _ _ (write_sensor bus 0xCC ( _reset bus s).2)
      have h4 := sensor_resolution _ _ (reset_sensor bus s)
      simp only [] at h0 ⊢
      rw [h0, h1, h2, h3, h4]
    · rw [readTemp_fail bus s h]
      exact sensor_resolution _ _ (reset_sensor bus s)

/-- C9, evaluated: from a state holding resolution 12, a rejected request (13), a bus
fault and a successful change to 9. -/
theorem C9_resolution_invariant_witness :
    resolutionValid s1 ∧
    resolutionValid (DS18B20_SetResolution busPresent 13 s1).2 ∧
    resolutionValid (DS18B20_SetResolution busIdle 9 s1).2 ∧
    (DS18B20_SetResolution busPresent 9 s1).2.resolution = 9 :=
  ⟨by decide,
    (C9_resolution_invariant busPresent 13 s1).1.1 (by decide),
    (C9_resolution_invariant busIdle 9 s1).1.1 (by decide),
    ((C9_resolution_invariant busPresent 9 s1).1.2.2.1 (by decide)).1⟩

set_option maxRecDepth 100000 in
/-- C10, refuted as stated: `DS18B20_Init` on a port whose latch bit is high leaves the
latch bit low; its two pin operations are set-input and drive-low, the drive-high macro
appears nowhere in the history of a whole successful `DS18B20_Init`, and the result is
not what `DS18B20_SetResolution` returns after set-input and drive-high. -/
theorem C10_init_drive_high_counterexample :
    ops (newTrace sLatched (DS18B20_Init busIdle 0 sLatched).2) =
      [Op.setPinIn, Op.setPinLow] ∧
    (DS18B20_Init busIdle 0 sLatched).2.out &&& OW_PIN_MASK = 0 ∧
    Op.setPinHigh ∉ ops (newTrace sLatched (DS18B20_Init busPresent 12 sLatched).2) ∧
    DS18B20_Init busIdle 0 sLatched ≠
      DS18B20_SetResolution busIdle 0 ( _setPinHigh ( _setPinIn sLatched)) := by
  decide

/-- C10, amended: `DS18B20_Init` configures the pin as input, clears the pin's output
latch with the drive-low macro (two pin operations, after which the direction bit and
the latch bit of the pin are 0 and nothing else of the driver state has changed), and
then returns exactly what `DS18B20_SetResolution` returns from that pin state, with the
same effect on the state.  The drive-high macro is used nowhere in the call. -/
theorem C10_init_releases_then_delegates (bus : Bus) (resolution : Nat) (s : State) :
    DS18B20_Init bus resolution s =
      DS18B20_SetResolution bus resolution ( _setPinLow ( _setPinIn s)) ∧
    ops (newTrace s ( _setPinLow ( _setPinIn s))) = [Op.setPinIn, Op.setPinLow] ∧
    ( _setPinLow ( _setPinIn s)).dir &&& OW_PIN_MASK = 0 ∧
    ( _setPinLow ( _setPinIn s)).out &&& OW_PIN_MASK = 0 ∧
    sensor ( _setPinLow ( _setPinIn s)) = sensor s ∧
    ( _setPinLow ( _setPinIn s)).slots = s.slots ∧
    ( _setPinLow ( _setPinIn s)).reads = s.reads ∧
    ( _setPinLow ( _setPinIn s)).ien = s.ien ∧
    (∀ e ∈ newTrace s (DS18B20_Init bus resolution s).2, e.op ≠ Op.setPinHigh) := by
  refine ⟨rfl, ?_, ?_, ?_, rfl, rfl, rfl, rfl, ?_⟩
  · simp [newTrace, ops, _setPinLow, _setPinIn, State.log]
  · exact and_bitNot_mask s.dir
  · exact and_bitNot_mask s.out
  · have h : ∃ a, Adds notHigh a s (DS18B20_Init bus resolution s).2 :=
      adds_chain (adds_chain (setPinIn_adds s) (setPinLow_adds _))
        (setResolution_adds bus resolution _)
    obtain ⟨a, ha⟩ := h
    exact ha.newTrace.2

/-- C11: `DS18B20_IsTempReady` issues exactly one time slot, with request bit 1, and
nothing else: the pin history grows by the seven steps of one read slot with a single
sample.  It returns the sampled level: 1 when the line is sampled high, 0 when it is
sampled low.  The stored resolution and the stored raw temperature are unchanged. -/
theorem C11_isTempReady_one_read_slot (bus : Bus) (s : State) :
    newSlots s (DS18B20_IsTempReady bus s).2 = [1] ∧
    ops (newTrace s (DS18B20_IsTempReady bus s).2) =
      [Op.setPinOut, Op.delay 2, Op.setPinIn, Op.delay 10,
        Op.sample (pinLevel bus s.reads), Op.delay 50, Op.delay 2] ∧
    (DS18B20_IsTempReady bus s).1 = pinLevel bus s.reads ∧
    (pinLevel bus s.reads ≠ 0 → (DS18B20_IsTempReady bus s).1 = 1) ∧
    (pinLevel bus s.reads = 0 → (DS18B20_IsTempReady bus s).1 = 0) ∧
    (DS18B20_IsTempReady bus s).2.resolution = s.resolution ∧
    (DS18B20_IsTempReady bus s).2.temp_b0 = s.temp_b0 ∧
    (DS18B20_IsTempReady bus s).2.temp_b1 = s.temp_b1 ∧
    (DS18B20_GetRawTemp (DS18B20_IsTempReady bus s).2).1 = (DS18B20_GetRawTemp s).1 := by
  have hres : (DS18B20_IsTempReady bus s).1 = pinLevel bus s.reads := by
    unfold DS18B20_IsTempReady
    rw [io_result]
    simp
  have hsen : sensor (DS18B20_IsTempReady bus s).2 = sensor s := io_sensor bus 1 s
  have hb0 : (DS18B20_IsTempReady bus s).2.temp_b0 = s.temp_b0 :=
    congrArg (fun t => t.1) hsen
  have hb1 : (DS18B20_IsTempReady bus s).2.temp_b1 = s.temp_b1 :=
    congrArg (fun t => t.2.1) hsen
  refine ⟨?_, ?_, hres, ?_, ?_, sensor_resolution _ _ hsen, hb0, hb1, ?_⟩
  · apply newSlots_of_append
    unfold DS18B20_IsTempReady
    rw [io_slots]
  · have h : newTrace s (DS18B20_IsTempReady bus s).2 = _ :=
      newTrace_of_append s _ _ (io_trace_one bus 1 s (by decide))
    rw [h]
    rfl
  · intro h
    rw [hres]
    have := pinLevel_le_one bus s.reads
    omega
  · intro h
    rw [hres, h]
  · rw [rawTemp_eq, rawTemp_eq, hb0, hb1]

/-- C11, evaluated: a line held low by a busy device reads 0, a released line reads 1. -/
theorem C11_isTempReady_one_read_slot_witness :
    (DS18B20_IsTempReady (fun _ => 0) s1).1 = 0 ∧ (DS18B20_IsTempReady busIdle s1).1 = 1 :=
  ⟨(C11_isTempReady_one_read_slot (fun _ => 0) s1).2.2.2.2.1 (by decide),
    (C11_isTempReady_one_read_slot busIdle s1).2.2.2.1 (by decide)⟩

/-- C12: on a bus where the reset succeeds, `DS18B20_ConvertTemp` returns 0 and the time
slots it issues are exactly the 16 slots of the bytes 0xCC and 0x44, least significant
bit first, and no further slot: it does not poll for the end of the conversion.  The
stored resolution and the stored raw temperature are unchanged. -/
theorem C12_convertTemp_bytes (bus : Bus) (s : State) (hreset : ( _reset bus s).1 = 0) :
    (DS18B20_ConvertTemp bus s).1 = 0 ∧
    newSlots s (DS18B20_ConvertTemp bus s).2 = byteSlots 0xCC ++ byteSlots 0x44 ∧
    (newSlots s (DS18B20_ConvertTemp bus s).2).length = 16 ∧
    sensor (DS18B20_ConvertTemp bus s).2 = sensor s ∧
    (DS18B20_ConvertTemp bus s).2.resolution = s.resolution ∧
    (DS18B20_GetRawTemp (DS18B20_ConvertTemp bus s).2).1 = (DS18B20_GetRawTemp s).1 := by
  have hslots : newSlots s (DS18B20_ConvertTemp bus s).2 =
      byteSlots 0xCC ++ byteSlots 0x44 := by
    rw [convertTemp_ok bus s hreset]
    apply newSlots_of_append
    simp only [write_slots, reset_slots, List.append_assoc]
  have hsen : sensor (DS18B20_ConvertTemp bus s).2 = sensor s := by
    rw [convertTemp_ok bus s hreset]
    simp only [write_sensor, reset_sensor]
  refine ⟨?_, hslots, ?_, hsen, sensor_resolution _ _ hsen, ?_⟩
  · rw [convertTemp_ok bus s hreset]
  · rw [hslots]
    rfl
  · rw [rawTemp_eq, rawTemp_eq]
    have h0 : (DS18B20_ConvertTemp bus s).2.temp_b0 = s.temp_b0 := congrArg (fun t => t.1) hsen
    have h1 : (DS18B20_ConvertTemp bus s).2.temp_b1 = s.temp_b1 :=
      congrArg (fun t => t.2.1) hsen
    rw [h0, h1]

/-- C12, evaluated on a bus with a responding device. -/
theorem C12_convertTemp_bytes_witness :
    ( _reset busPresent s1).1 = 0 ∧
    (DS18B20_ConvertTemp busPresent s1).1 = 0 ∧
    newSlots s1 (DS18B20_ConvertTemp busPresent s1).2 = byteSlots 0xCC ++ byteSlots 0x44 :=
  ⟨by decide, (C12_convertTemp_bytes busPresent s1 (by decide)).1,
    (C12_convertTemp_bytes busPresent s1 (by decide)).2.1⟩

/-- C13: the getters are idempotent.  `DS18B20_GetTemp` and `DS18B20_GetRawTemp` hand
back the state they were given (so they add nothing to the pin history and issue no
slot), and a caller that calls them any number of times in any order ends in the state
it started from and gets from every call what that getter returns in the starting
state: each `DS18B20_GetRawTemp` the same register value, each `DS18B20_GetTemp` the
same converted value. -/
theorem C13_getters_idempotent (gs : List Getter) (s : State) :
    (DS18B20_GetTemp s).2 = s ∧ (DS18B20_GetRawTemp s).2 = s ∧
    newTrace s (DS18B20_GetTemp s).2 = [] ∧ newSlots s (DS18B20_GetTemp s).2 = [] ∧
    newTrace s (DS18B20_GetRawTemp s).2 = [] ∧ newSlots s (DS18B20_GetRawTemp s).2 = [] ∧
    (runGetters gs s).2 = s ∧
    (runGetters gs s).1 = gs.map (fun g => (callGetter g s).1) ∧
    (∀ r ∈ (runGetters gs s).1,
      r = Reading.temp (DS18B20_GetTemp s).1 ∨ r = Reading.raw (DS18B20_GetRawTemp s).1) := by
  have hrun : (runGetters gs s).2 = s ∧
      (runGetters gs s).1 = gs.map (fun g => (callGetter g s).1) := by
    induction gs with
    | nil => exact ⟨rfl, rfl⟩
    | cons g gs ih =>
      have hg : (callGetter g s).2 = s := by cases g <;> rfl
      simp only [runGetters, hg, ih.1, ih.2, List.map_cons]
      exact ⟨trivial, trivial⟩
  refine ⟨rfl, rfl, ?_, ?_, ?_, ?_, hrun.1, hrun.2, ?_⟩
  · simp [newTrace, DS18B20_GetTemp]
  · simp [newSlots, DS18B20_GetTemp]
  · simp [newTrace, DS18B20_GetRawTemp]
  · simp [newSlots, DS18B20_GetRawTemp]
  · intro r hr
    rw [hrun.2] at hr
    obtain ⟨g, _, hg⟩ := List.mem_map.mp hr
    cases g
    · left; exact hg.symm
    · right; exact hg.symm

/-- C14: byte transfer is least significant bit first.  For every byte `B`, `_write B`
issues exactly 8 time slots and the request bit of slot `i` is bit `i` of `B`.  `_read`
issues exactly 8 slots, all with request bit 1, takes exactly 8 samples, and returns the
sum over `i` of the level sampled in slot `i` times `2 ^ i`. -/
theorem C14_lsb_first (bus : Bus) (s : State) (B : Nat) (hB : B < 256) :
    newSlots s ( _write bus B s) = (List.range 8).map (fun i => B / 2 ^ i % 2) ∧
    (newSlots s ( _write bus B s)).length = 8 ∧
    newSlots s ( _read bus s).2 = List.replicate 8 1 ∧
    samples (newTrace s ( _read bus s).2) =
      (List.range 8).map (fun i => pinLevel bus (s.reads + i)) ∧
    (∀ i, pinLevel bus (s.reads + i) = 0 ∨ pinLevel bus (s.reads + i) = 1) ∧
    ( _read bus s).1 =
      ((List.range 8).map (fun i => pinLevel bus (s.reads + i) * 2 ^ i)).sum := by
  have hw : newSlots s ( _write bus B s) = (List.range 8).map (fun i => B / 2 ^ i % 2) := by
    rw [← byteSlots_eq]
    apply newSlots_of_append
    rw [write_slots, Nat.mod_eq_of_lt hB]
  refine ⟨hw, ?_, ?_, (read_adds bus s).newTrace.1, ?_, read_result_sum bus s⟩
  · rw [hw]
    simp
  · apply newSlots_of_append
    rw [read_slots]
  · intro i
    have := pinLevel_le_one bus (s.reads + i)
    omega

/-- C14, evaluated: 0xBE goes out as 0,1,1,1,1,1,0,1 and the levels 0,1,1,1,1,0,1,0
come back as 0x5E. -/
theorem C14_lsb_first_witness :
    (0xBE < 256) ∧
    newSlots s0 ( _write busIdle 0xBE s0) = [0, 1, 1, 1, 1, 1, 0, 1] ∧
    ( _read (busLoopback [0, 1, 1, 1, 1, 0, 1, 0] 0) s0).1 = 0x5E :=
  ⟨by decide,
    (C14_lsb_first busIdle s0 0xBE (by decide)).1.trans (by decide),
    (C14_lsb_first (busLoopback [0, 1, 1, 1, 1, 0, 1, 0] 0) s0 0xBE
      (by decide)).2.2.2.2.2.trans (by decide)⟩

/-- C15: one bit time slot, from a state whose latch bit is low.  `_io(0)` adds exactly
set-output, 2 us, 60 us, set-input, 2 us: the line is driven low during the first three
steps (62 us), released afterwards, never sampled, and 0 is returned.  `_io(b)` with `b`
non-zero adds exactly set-output, 2 us, set-input, 10 us, one sample, 50 us, 2 us: the
line is driven low during the first two steps (2 us), released afterwards, sampled once
10 us after the release, and the sampled level is returned.  Either way the last step is
the 2 us recovery delay and the delays of the slot add up to 64 us. -/
theorem C15_bit_time_slot (bus : Bus) (b : Nat) (s : State) (hb : b < 256)
    (hlatch : s.out &&& OW_PIN_MASK = 0) :
    (b = 0 →
      ops (newTrace s ( _io bus b s).2) =
        [Op.setPinOut, Op.delay 2, Op.delay 60, Op.setPinIn, Op.delay 2] ∧
      (∀ e ∈ (newTrace s ( _io bus b s).2).take 3, drivenLow e) ∧
      totalDelay ((newTrace s ( _io bus b s).2).take 3) = 2 + 60 ∧
      (∀ e ∈ (newTrace s ( _io bus b s).2).drop 3, released e) ∧
      samples (newTrace s ( _io bus b s).2) = [] ∧
      ( _io bus b s).1 = 0) ∧
    (b ≠ 0 →
      ops (newTrace s ( _io bus b s).2) =
        [Op.setPinOut, Op.delay 2, Op.setPinIn, Op.delay 10,
          Op.sample (pinLevel bus s.reads), Op.delay 50, Op.delay 2] ∧
      (∀ e ∈ (newTrace s ( _io bus b s).2).take 2, drivenLow e) ∧
      totalDelay ((newTrace s ( _io bus b s).2).take 2) = 2 ∧
      (∀ e ∈ (newTrace s ( _io bus b s).2).drop 2, released e) ∧
      samples (newTrace s ( _io bus b s).2) = [pinLevel bus s.reads] ∧
      ( _io bus b s).1 = pinLevel bus s.reads) ∧
    totalDelay (newTrace s ( _io bus b s).2) = 64 := by
  have hm : b % 256 = b := Nat.mod_eq_of_lt hb
  by_cases h0 : b = 0
  · have hz : b % 256 = 0 := by rw [hm]; exact h0
    have ht := newTrace_of_append s _ _ (io_trace_zero bus b s hz)
    refine ⟨fun _ => ⟨?_, ?_, ?_, ?_, ?_, ?_⟩, fun h => absurd h0 h, ?_⟩
    · rw [ht]; rfl
    · rw [ht]
      intro e he
      simp at he
      rcases he with rfl | rfl | rfl <;> exact ⟨by simp [or_mask], hlatch⟩
    · rw [ht]; rfl
    · rw [ht]
      intro e he
      simp at he
      rcases he with rfl | rfl <;> exact and_bitNot_mask _
    · rw [ht]; rfl
    · rw [io_result, if_pos hz]
    · rw [ht]; rfl
  · have hz : b % 256 ≠ 0 := by rw [hm]; exact h0
    have ht := newTrace_of_append s _ _ (io_trace_one bus b s hz)
    refine ⟨fun h => absurd h h0, fun _ => ⟨?_, ?_, ?_, ?_, ?_, ?_⟩, ?_⟩
    · rw [ht]; rfl
    · rw [ht]
      intro e he
      simp at he
      rcases he with rfl | rfl <;> exact ⟨by simp [or_mask], hlatch⟩
    · rw [ht]; rfl
    · rw [ht]
      intro e he
      simp at he
      rcases he with rfl | rfl | rfl | rfl | rfl <;> exact and_bitNot_mask _
    · rw [ht]; rfl
    · rw [io_result, if_neg hz]
    · rw [ht]; rfl

/-- C15, evaluated: a write-0 slot and a read slot on an idle line, latch low. -/
theorem C15_bit_time_slot_witness :
    (0 < 256) ∧ (1 < 256) ∧ (sBusy.out &&& OW_PIN_MASK = 0) ∧
    ( _io busIdle 0 sBusy).1 = 0 ∧ ( _io busIdle 1 sBusy).1 = 1 ∧
    totalDelay (newTrace sBusy ( _io busIdle 0 sBusy).2) = 64 ∧
    totalDelay (newTrace sBusy ( _io busIdle 1 sBusy).2) = 64 :=
  ⟨by decide, by decide, by decide,
    ((C15_bit_time_slot busIdle 0 sBusy (by decide) (by decide)).1 rfl).2.2.2.2.2,
    ((C15_bit_time_slot busIdle 1 sBusy (by decide) (by decide)).2.1 (by decide)).2.2.2.2.2,
    (C15_bit_time_slot busIdle 0 sBusy (by decide) (by decide)).2.2,
    (C15_bit_time_slot busIdle 1 sBusy (by decide) (by decide)).2.2⟩

/-- C16: the reset sequence.  From every state `_reset` adds to the pin history exactly
drive-low, set-output, 480 us, set-input, 64 us, sample, 416 us, sample, and issues no
time slot.  The line is driven low during set-output and the 480 us that follow, and is
released from set-input on; the delays between the release and the first sample add up
to 64 us, those between the release and the second sample to 480 us, and all delays to
960 us. -/
theorem C16_reset_sequence (bus : Bus) (s : State) :
    ops (newTrace s ( _reset bus s).2) =
      [Op.setPinLow, Op.setPinOut, Op.delay 480, Op.setPinIn, Op.delay 64,
        Op.sample (pinLevel bus s.reads), Op.delay 416,
        Op.sample (pinLevel bus (s.reads + 1))] ∧
    newSlots s ( _reset bus s).2 = [] ∧
    (∀ e ∈ ((newTrace s ( _reset bus s).2).drop 1).take 2, drivenLow e) ∧
    totalDelay (((newTrace s ( _reset bus s).2).drop 1).take 2) = 480 ∧
    (∀ e ∈ (newTrace s ( _reset bus s).2).drop 3, released e) ∧
    ops (((newTrace s ( _reset bus s).2).drop 3).take 3) =
      [Op.setPinIn, Op.delay 64, Op.sample (pinLevel bus s.reads)] ∧
    totalDelay (((newTrace s ( _reset bus s).2).drop 3).take 3) = 64 ∧
    totalDelay ((newTrace s ( _reset bus s).2).drop 3) = 480 ∧
    totalDelay (newTrace s ( _reset bus s).2) = 960 := by
  have ht := newTrace_of_append s _ _ (reset_trace bus s)
  rw [ht]
  refine ⟨rfl, ?_, ?_, by simp [totalDelay], ?_, rfl, by simp [totalDelay],
    by simp [totalDelay], by simp [totalDelay]⟩
  · apply newSlots_of_append
    rw [reset_slots]
    simp
  · intro e he
    simp at he
    rcases he with rfl | rfl <;> exact ⟨by simp [or_mask], and_bitNot_mask _⟩
  · intro e he
    simp at he
    rcases he with rfl | rfl | rfl | rfl | rfl <;> exact and_bitNot_mask _

/-- C16, evaluated from a port whose pins all drive high. -/
theorem C16_reset_sequence_witness :
    ops (newTrace sLatched ( _reset busPresent sLatched).2) =
      [Op.setPinLow, Op.setPinOut, Op.delay 480, Op.setPinIn, Op.delay 64,
        Op.sample 0, Op.delay 416, Op.sample 1] ∧
    totalDelay (newTrace sLatched ( _reset busPresent sLatched).2) = 960 :=
  ⟨(C16_reset_sequence busPresent sLatched).1,
    (C16_reset_sequence busPresent sLatched).2.2.2.2.2.2.2.2⟩

/-- C17: atomic sections, with interrupt masking as a flag of the state.  For every
operation and every state (so for either value of the flag on entry) the flag on return
is the flag on entry, and every step in between runs with interrupts disabled or with
the flag of entry.  In `_reset` the release, the 64 us wait and the presence sample run
with interrupts disabled, while drive-low, set-output, the 480 us hold, the 416 us tail
and the final sample run with the caller's flag.  In `_io`, for either kind of slot, all
steps from set-output to the end of the slot body run with interrupts disabled and the
2 us recovery delay runs with the caller's flag. -/
theorem C17_atomic_sections (bus : Bus) (op : Operation) (b : Nat) (s : State) :
    (Operation.after bus op s).ien = s.ien ∧
    (∀ e ∈ newTrace s (Operation.after bus op s), e.ien = false ∨ e.ien = s.ien) ∧
    (newTrace s ( _reset bus s).2).map (fun e => (e.op, e.ien)) =
      [(Op.setPinLow, s.ien), (Op.setPinOut, s.ien), (Op.delay 480, s.ien),
        (Op.setPinIn, false), (Op.delay 64, false),
        (Op.sample (pinLevel bus s.reads), false),
        (Op.delay 416, s.ien), (Op.sample (pinLevel bus (s.reads + 1)), s.ien)] ∧
    (b % 256 = 0 →
      (newTrace s ( _io bus b s).2).map (fun e => (e.op, e.ien)) =
        [(Op.setPinOut, false), (Op.delay 2, false), (Op.delay 60, false),
          (Op.setPinIn, false), (Op.delay 2, s.ien)]) ∧
    (b % 256 ≠ 0 →
      (newTrace s ( _io bus b s).2).map (fun e => (e.op, e.ien)) =
        [(Op.setPinOut, false), (Op.delay 2, false), (Op.setPinIn, false),
          (Op.delay 10, false), (Op.sample (pinLevel bus s.reads), false),
          (Op.delay 50, false), (Op.delay 2, s.ien)]) := by
  have hw := after_walk bus op s
  refine ⟨hw.1, ?_, ?_, ?_, ?_⟩
  · intro e he
    exact (hw.added.1 e he).2.1
  · rw [newTrace_of_append s _ _ (reset_trace bus s)]
    rfl
  · intro h
    rw [newTrace_of_append s _ _ (io_trace_zero bus b s h)]
    rfl
  · intro h
    rw [newTrace_of_append s _ _ (io_trace_one bus b s h)]
    rfl

/-- C17, evaluated with interrupts disabled on entry and with interrupts enabled on
entry: a whole temperature read returns with the flag it was entered with. -/
theorem C17_atomic_sections_witness :
    (DS18B20_ReadTemp busPresent sMasked).2.ien = false ∧
    (DS18B20_ReadTemp busPresent sBusy).2.ien = true :=
  ⟨(C17_atomic_sections busPresent Operation.ReadTemp 0 sMasked).1,
    (C17_atomic_sections busPresent Operation.ReadTemp 0 sBusy).1⟩

/-- C18: open-drain discipline.  For every operation, from every state: no step is the
drive-high macro; the latch bit of the pin is never raised (at every step and on return
it is at most what it was on entry); an operation that touches the pin adds to the pin
history and returns with the direction bit of the pin cleared, that is with the line
released; and if the latch bit is low on entry, at no step is the pin an output driving
high.  `DS18B20_Init` and `_reset` return with the latch bit low, and `_io` returns with
the output register it was given. -/
theorem C18_open_drain (bus : Bus) (op : Operation) (r b : Nat) (s : State) :
    (∀ e ∈ newTrace s (Operation.after bus op s), e.op ≠ Op.setPinHigh) ∧
    (∀ e ∈ newTrace s (Operation.after bus op s),
      e.out &&& OW_PIN_MASK ≤ s.out &&& OW_PIN_MASK) ∧
    (Operation.after bus op s).out &&& OW_PIN_MASK ≤ s.out &&& OW_PIN_MASK ∧
    (Operation.touchesPin op →
      newTrace s (Operation.after bus op s) ≠ [] ∧
      (Operation.after bus op s).dir &&& OW_PIN_MASK = 0) ∧
    (newTrace s (Operation.after bus op s) ≠ [] →
      (Operation.after bus op s).dir &&& OW_PIN_MASK = 0) ∧
    (s.out &&& OW_PIN_MASK = 0 →
      ∀ e ∈ newTrace s (Operation.after bus op s), ¬ drivenHigh e) ∧
    (DS18B20_Init bus r s).2.out &&& OW_PIN_MASK = 0 ∧
    ( _reset bus s).2.out &&& OW_PIN_MASK = 0 ∧
    ( _io bus b s).2.out = s.out := by
  have hw := after_walk bus op s
  have hn := hw.added
  have hout : ∀ x : Nat, (x = s.out ∨ x = pinClr s.out) →
      x &&& OW_PIN_MASK ≤ s.out &&& OW_PIN_MASK := by
    intro x hx
    rcases hx with hx | hx
    · rw [hx]
    · rw [hx, pinClr_mask]
      exact Nat.zero_le _
  refine ⟨?_, ?_, hout _ hw.2.1, ?_, ?_, ?_, ?_, ?_, io_out bus b s⟩
  · intro e he
    exact (hn.1 e he).1
  · intro e he
    exact hout _ (hn.1 e he).2.2.2
  · intro ht
    have hg := after_grew bus op s ht
    refine ⟨?_, ?_⟩
    · intro hnil
      obtain ⟨_, _, l, el, _, _⟩ := hw
      have hl := newTrace_of_append s _ l el
      rw [hnil] at hl
      unfold Grew at hg
      rw [el, ← hl] at hg
      simp at hg
    · rw [hn.2.2 hg]
      exact pinClr_mask _
  · intro hne
    rw [hn.2.1 hne]
    exact pinClr_mask _
  · intro hlow e he hhigh
    have h := hout _ (hn.1 e he).2.2.2
    rw [hlow] at h
    exact hhigh.2 (Nat.le_zero.mp h)
  · have hi := (init_pins_walk s).chain (setResolution_walk bus r ( _setPinLow ( _setPinIn s)))
    have h1 : ( _setPinLow ( _setPinIn s)).out = pinClr s.out := rfl
    have h2 := (setResolution_walk bus r ( _setPinLow ( _setPinIn s))).2.1
    show (DS18B20_SetResolution bus r ( _setPinLow ( _setPinIn s))).2.out &&& OW_PIN_MASK = 0
    rcases h2 with h2 | h2
    · rw [h2, h1]
      exact pinClr_mask _
    · rw [h2]
      exact pinClr_mask _
  · rw [reset_out]
    exact pinClr_mask _

set_option maxRecDepth 100000 in
/-- C18, evaluated from a port whose pins all drive high: whole `DS18B20_Init` returns
with direction bit and latch bit of the pin cleared. -/
theorem C18_open_drain_witness :
    (DS18B20_Init busPresent 12 sLatched).2.dir &&& OW_PIN_MASK = 0 ∧
    (DS18B20_Init busPresent 12 sLatched).2.out &&& OW_PIN_MASK = 0 :=
  ⟨((C18_open_drain busPresent (Operation.Init 12) 12 0 sLatched).2.2.2.1 trivial).2,
    (C18_open_drain busPresent (Operation.Init 12) 12 0 sLatched).2.2.2.2.2.2.1⟩

/-- C19: port frame.  For every initial value of the two 8-bit registers and every
operation, the direction register and the output register stay 8-bit values and each of
their bits other than bit `OW_PIN` is after the operation, and at every step of it,
what it was before.  The input register is a parameter of the model that no function
returns or alters: it is only read, by `_getPinState`. -/
theorem C19_port_frame (bus : Bus) (op : Operation) (s : State)
    (hd : s.dir < 256) (ho : s.out < 256) :
    (∀ i < 8, i ≠ OW_PIN →
      (Operation.after bus op s).dir.testBit i = s.dir.testBit i ∧
      (Operation.after bus op s).out.testBit i = s.out.testBit i) ∧
    (Operation.after bus op s).dir < 256 ∧ (Operation.after bus op s).out < 256 ∧
    (∀ e ∈ newTrace s (Operation.after bus op s),
      e.dir < 256 ∧ e.out < 256 ∧
      ∀ i < 8, i ≠ OW_PIN →
        e.dir.testBit i = s.dir.testBit i ∧ e.out.testBit i = s.out.testBit i) := by
  have hw := after_walk bus op s
  have fd := pin_frame s.dir hd
  have fo := pin_frame s.out ho
  have kd : ∀ x : Nat, (x = s.dir ∨ x = pinSet s.dir ∨ x = pinClr s.dir) →
      x < 256 ∧ ∀ i < 8, i ≠ OW_PIN → x.testBit i = s.dir.testBit i := by
    intro x hx
    rcases hx with hx | hx | hx
    · rw [hx]; exact ⟨hd, fun _ _ _ => rfl⟩
    · rw [hx]; exact ⟨fd.1, fun i hi hne => (fd.2.2 i hi hne).1⟩
    · rw [hx]; exact ⟨fd.2.1, fun i hi hne => (fd.2.2 i hi hne).2⟩
  have ko : ∀ x : Nat, (x = s.out ∨ x = pinClr s.out) →
      x < 256 ∧ ∀ i < 8, i ≠ OW_PIN → x.testBit i = s.out.testBit i := by
    intro x hx
    rcases hx with hx | hx
    · rw [hx]; exact ⟨ho, fun _ _ _ => rfl⟩
    · rw [hx]; exact ⟨fo.2.1, fun i hi hne => (fo.2.2 i hi hne).2⟩
  have hdir : (Operation.after bus op s).dir = s.dir ∨
      (Operation.after bus op s).dir = pinSet s.dir ∨
      (Operation.after bus op s).dir = pinClr s.dir := by
    rcases hw.dir with h | h
    · exact Or.inl h
    · exact Or.inr (Or.inr h)
  refine ⟨fun i hi hne => ⟨(kd _ hdir).2 i hi hne, (ko _ hw.2.1).2 i hi hne⟩,
    (kd _ hdir).1, (ko _ hw.2.1).1, ?_⟩
  intro e he
  have hs := hw.added.1 e he
  exact ⟨(kd _ hs.2.2.1).1, (ko _ hs.2.2.2).1,
    fun i hi hne => ⟨(kd _ hs.2.2.1).2 i hi hne, (ko _ hs.2.2.2).2 i hi hne⟩⟩

set_option maxRecDepth 100000 in
/-- C19, evaluated: a whole `DS18B20_Init` from direction `0xFF` and latch `0xFF` leaves
`0xFE` in both registers. -/
theorem C19_port_frame_witness :
    (sLatched.dir < 256) ∧ (sLatched.out < 256) ∧
    (DS18B20_Init busPresent 12 sLatched).2.dir = 0xFE ∧
    (DS18B20_Init busPresent 12 sLatched).2.out = 0xFE ∧
    (DS18B20_Init busPresent 12 sLatched).2.dir < 256 ∧
    (DS18B20_Init busPresent 12 sLatched).2.dir.testBit 7 = sLatched.dir.testBit 7 :=
  ⟨by decide, by decide, by decide, by decide,
    (C19_port_frame busPresent (Operation.Init 12) sLatched (by decide) (by decide)).2.1,
    ((C19_port_frame busPresent (Operation.Init 12) sLatched (by decide) (by decide)).1 7
      (by decide) (by decide)).1⟩

end DS18B20
